import Mathlib

/-!
Verification development for the `pipa` text-templating compiler and VM
(`src/syntax.rs`, `src/ir.rs`, `src/vm.rs`, `src/error.rs`).

The Rust code is shallowly embedded: strings are lists of characters
(`Str`), Rust byte slicing `&s[a..b]` is modelled by `byteSlice` (byte
offsets computed from UTF-8 sizes, `none` = out of bounds / non-boundary
panic), machine integers are `Nat` with the 64-bit bound made explicit
where `usize` parsing can overflow, and every Rust `panic!`/`unwrap`
/`unreachable!` path is an explicit `panic` result constructor.
-/

/-- Rust `str`/`String` values, modelled as lists of characters. -/
abbrev Str := List Char

/-- UTF-8 byte size of one character (Rust `char::len_utf8`). -/
def charSize (c : Char) : Nat := c.utf8Size

/-- Rust `str::len`: the length in BYTES (not characters, not graphemes). -/
def byteLen (s : Str) : Nat := (s.map charSize).sum

/-- Split a string at a byte offset; `none` when the offset is out of
range or not on a character boundary (where Rust slicing panics). -/
def byteSplitAt : Str → Nat → Option (Str × Str)
  | s, 0 => some ([], s)
  | [], _ + 1 => none
  | c :: rest, n + 1 =>
    if charSize c ≤ n + 1 then
      (byteSplitAt rest (n + 1 - charSize c)).map (fun p => (c :: p.1, p.2))
    else none

/-- Rust `&s[a..b]` byte slicing; `none` models the panic on an invalid
range or a non-boundary offset. -/
def byteSlice (s : Str) (a b : Nat) : Option Str :=
  if a ≤ b then
    match byteSplitAt s a with
    | some p =>
      match byteSplitAt p.2 (b - a) with
      | some q => some q.1
      | none => none
    | none => none
  else none

/-- Rust `str::get(a..b)`: like slicing but returns `None` instead of
panicking. -/
def byteGet (s : Str) (a b : Nat) : Option Str := byteSlice s a b

/-- Modelled from the spec: grapheme segmentation of the external
`unicode_segmentation` crate, which is not part of this repository.  The
spec says offsets count user-perceived characters; this model makes every
code point its own cluster, which agrees with the crate on all texts that
contain no combining sequences and no CR-LF pairs (every concrete input
in this development is in that fragment). -/
def graphemes (s : Str) : List Str := s.map (fun c => [c])

/-- Rust `"…".parse::<usize>()`: digits only, value must fit in 64 bits. -/
def parseUsize (s : Str) : Option Nat :=
  if s = [] then none
  else if s.all Char.isDigit then
    let v := s.foldl (fun acc c => acc * 10 + (c.toNat - 48)) 0
    if v < 2 ^ 64 then some v else none
  else none

/-- The `{` character (written via its code to keep template sources
readable next to it). -/
def lbrace : Char := Char.ofNat 123

/-- The `}` character. -/
def rbrace : Char := Char.ofNat 125

/-- Token kinds of the lexer (`syntax.rs::TokenType`).  The two macro
marker kinds are called `mcrDef`/`mcrExp` here. -/
inductive TokenType where
  | int
  | name
  | literal
  | codeBegin
  | codeEnd
  | exprBegin
  | exprEnd
  | quote
  | string
  | space
  | newLine
  | escapeSymbol
  | formatSymbol
  | range
  | rangeBegin
  | rangeSep
  | rangeEnd
  | mcrDef
  | mcrExp
  | pipe
  deriving DecidableEq, Repr

/-- `impl Into<TokenType> for &str` from `syntax.rs`, on one cluster. -/
def tokenTypeOf (c : Char) : TokenType :=
  if c = '\n' then .newLine
  else if c = ' ' ∨ c = '\t' then .space
  else if c = '?' then .mcrExp
  else if c = lbrace then .codeBegin
  else if c = rbrace then .codeEnd
  else if c = '\\' then .escapeSymbol
  else if c = '$' then .formatSymbol
  else if c = '\"' then .quote
  else if c = '[' then .rangeBegin
  else if c = ':' then .rangeSep
  else if c = ']' then .rangeEnd
  else if c = '@' then .mcrDef
  else if c.isDigit then .int
  else if c = '(' then .exprBegin
  else if c = ')' then .exprEnd
  else .literal

/-- A lexer token: kind plus grapheme-offset span (`syntax.rs::Token`). -/
structure Token where
  tokenType : TokenType
  firstChar : Nat
  endChar : Nat
  deriving DecidableEq, Repr

/-- One item yielded by `syntax.rs::EscapeIter`: escaping flag, grapheme
offset, cluster. -/
abbrev EscItem := Bool × Nat × Char

/-- The full item sequence of `EscapeIter::new(s, offset, _)`.  A `\` that
is not itself escaped is consumed silently and sets the flag for the next
cluster.  (The `tokens` parameter of the Rust iterator does not affect
which items are yielded, so it is omitted.) -/
def escapeItems : Str → Nat → Bool → List EscItem
  | [], _, _ => []
  | c :: rest, i, esc =>
    if c = '\\' ∧ esc = false then escapeItems rest (i + 1) true
    else (esc, i, c) :: escapeItems rest (i + 1) false

/-- Value kinds used by IR type errors (`ir.rs::Type`). -/
inductive Ty where
  | string
  | int
  | array
  | literal
  | name
  deriving DecidableEq, Repr

/-- Structured reasons of `error.rs::ErrorReason` (macro spelled `mcr`). -/
inductive ErrorReason where
  | synError (expected : List TokenType)
  | nameError
  | mcrRedefinition (name : Str)
  | undefinedMcr (name : Str)
  | undefinedVar (name : Str)
  | nestedMcr
  | emptyMcr
  | pipeNoParent
  | arrayNoNewLine
  | arrayNotPiped
  | typeError (expected got : Ty)
  deriving DecidableEq, Repr

/-- `error.rs::CompileError`: an offset plus a structured reason. -/
structure CompileError where
  firstChar : Nat
  reason : ErrorReason
  deriving DecidableEq, Repr

/-- Result of a compile stage: success, a typed compile error, a Rust
panic (`unwrap`/`unreachable!`/index out of bounds), or exhausted fuel
(used only by the IR generator's loop, whose fuel argument is always
sufficient when called through `genIr`). -/
inductive Res (α : Type) where
  | ok (a : α)
  | err (e : CompileError)
  | panic
  | fuelOut
  deriving Repr

/-- Monadic glue for `Res`. -/
def Res.bind {α β : Type} : Res α → (α → Res β) → Res β
  | .ok a, f => f a
  | .err e, _ => .err e
  | .panic, _ => .panic
  | .fuelOut, _ => .fuelOut

/-- Lift an `Option` whose `none` is a Rust panic. -/
def Res.ofOpt {α : Type} : Option α → Res α
  | some a => .ok a
  | none => .panic

/-- `syntax.rs::expect_symbol`: consume one item (skipping blanks when
asked) and require its kind to be in `expected`.  A match on an escaped
cluster reports offset `i - 1`; an exhausted iterator reports offset 0.
This primitive version also returns the advanced iterator on failure
(the Rust iterator is shared mutable state, so a failed call still
consumed the offending item). -/
def expectSymbolR : List EscItem → List TokenType → Bool → Res Char × List EscItem
  | [], expected, _ => (.err ⟨0, .synError expected⟩, [])
  | (esc, i, c) :: rest, expected, iws =>
    if iws ∧ (c = ' ' ∨ c = '\n') then expectSymbolR rest expected iws
    else if tokenTypeOf c ∈ expected then
      if esc then (.err ⟨i - 1, .synError expected⟩, rest) else (.ok c, rest)
    else (.err ⟨i, .synError expected⟩, rest)

/-- `expect_symbol` for callers that propagate the error (iterator state
after a failure is then irrelevant). -/
def expectSymbol (items : List EscItem) (expected : List TokenType) (iws : Bool) :
    Res (Char × List EscItem) :=
  match expectSymbolR items expected iws with
  | (.ok c, rest) => .ok (c, rest)
  | (.err e, _) => .err e
  | (.panic, _) => .panic
  | (.fuelOut, _) => .fuelOut

/-- `syntax.rs::find_symbol`: scan to the first unescaped cluster whose
kind is in `expected`, returning its offset.  The accumulator holds the
offset of the last cluster seen, used in the exhaustion error. -/
def findSymbol : List EscItem → List TokenType → Nat → Res (Nat × List EscItem)
  | [], expected, c => .err ⟨c, .synError expected⟩
  | (esc, i, ch) :: rest, expected, _ =>
    if tokenTypeOf ch ∈ expected ∧ esc = false then .ok (i, rest)
    else findSymbol rest expected i

/-- `syntax.rs::find_boundary`: scan a maximal run of clusters of kind
`expected` (escaped clusters count as `literal`), stopping at a cluster
whose kind is in `terminator` (consumed, its offset returned) or at the
end of the iterator (last offset + 1 returned). -/
def findBoundary : List EscItem → Nat → TokenType → List TokenType → Res (Nat × List EscItem)
  | [], c, _, _ => .ok (c + 1, [])
  | (esc, i, ch) :: rest, _, expected, term =>
    let t := if esc then TokenType.literal else tokenTypeOf ch
    if t = expected then findBoundary rest i expected term
    else if t ∈ term then .ok (i, rest)
    else .err ⟨i, .synError term⟩

/-- The quoted-string scan inside `lex_code`: find the matching unescaped
quote; returns the last offset seen and the remaining items on success. -/
def scanQuote : List EscItem → Nat → Nat × Option (List EscItem)
  | [], e => (e, none)
  | (esc, ni, tn) :: rest, _ =>
    if esc = false ∧ tn = '\"' then (ni, some rest)
    else scanQuote rest ni

/-- `syntax.rs::lex_code`: tokenize the contents of one directive block.
`code2` is the block's text (as byte-sliced out of the source), `fc` the
block's first grapheme offset in the source.  The fuel argument only
bounds the number of loop iterations; every iteration consumes at least
one item, so `items.length + 1` fuel never runs out. -/
def lexCode : Nat → List EscItem → Str → Nat → List Token → Res (List Token)
  | _, [], _, _, toks => .ok toks
  | 0, _ :: _, _, _, _ => .fuelOut
  | fuel + 1, (esc, i, c) :: rest, code2, fc, toks =>
    if esc then .err ⟨i - 1, .synError []⟩
    else if c = '@' then
      match findBoundary rest i .literal [.space] with
      | .ok (e, rest2) => lexCode fuel rest2 code2 fc (toks ++ [⟨.mcrDef, i, e⟩])
      | .err er => .err er
      | .panic => .panic
      | .fuelOut => .fuelOut
    else if c = '?' then
      match findSymbol rest [.space, .newLine] 0 with
      | .ok (e, rest2) => lexCode fuel rest2 code2 fc (toks ++ [⟨.mcrExp, i, e⟩])
      | .err er => .err er
      | .panic => .panic
      | .fuelOut => .fuelOut
    else if c = '\"' then
      match scanQuote rest i with
      | (e, none) => .err ⟨e, .synError [.quote]⟩
      | (e, some rest2) =>
        match expectSymbol rest2 [.space, .newLine] false with
        | .ok (sym, rest3) =>
          let toks1 := toks ++ [⟨.string, i, e + 1⟩]
          let toks2 := if sym = '\n' then toks1 ++ [⟨.newLine, e, e + 1⟩] else toks1
          lexCode fuel rest3 code2 fc toks2
        | .err er => .err er
        | .panic => .panic
        | .fuelOut => .fuelOut
    else if c = '#' then
      match findSymbol rest [.newLine] 0 with
      | .ok (e, rest2) => lexCode fuel rest2 code2 fc (toks ++ [⟨.newLine, e, e + 1⟩])
      | .err _ => lexCode fuel [] code2 fc toks
      | .panic => .panic
      | .fuelOut => .fuelOut
    else if c = '|' then
      lexCode fuel rest code2 fc (toks ++ [⟨.pipe, i, i + 1⟩])
    else if c.isDigit then
      match findBoundary rest i .int [.space, .newLine] with
      | .ok (e, rest2) => lexCode fuel rest2 code2 fc (toks ++ [⟨.int, i, e⟩])
      | .err er => .err er
      | .panic => .panic
      | .fuelOut => .fuelOut
    else if c = '\n' then
      lexCode fuel rest code2 fc (toks ++ [⟨.newLine, i, i + 1⟩])
    else if c = ' ' ∨ c = '\t' then
      lexCode fuel rest code2 fc toks
    else
      match findBoundary rest i .literal [.space, .newLine, .rangeBegin] with
      | .ok (e, rest2) =>
        let toks1 := toks ++ [⟨.name, i, e⟩]
        match byteGet code2 (i - fc) (e - fc) with
        | none => .err ⟨i, .nameError⟩
        | some t =>
          if ¬ t.all (fun ch => ch.toNat < 128) then .err ⟨i, .nameError⟩
          else if e - fc + 1 < byteLen code2 then
            match byteSlice code2 (e - fc) (e - fc + 1) with
            | none => .panic
            | some s =>
              if s = ['['] then
                match findSymbol rest2 [.rangeEnd] 0 with
                | .ok (ne, rest3) => lexCode fuel rest3 code2 fc (toks1 ++ [⟨.range, e, ne + 1⟩])
                | .err er => .err er
                | .panic => .panic
                | .fuelOut => .fuelOut
              else lexCode fuel rest2 code2 fc toks1
          else lexCode fuel rest2 code2 fc toks1
      | .err er => .err er
      | .panic => .panic
      | .fuelOut => .fuelOut

/-- The directive-block body scan inside `lex`: error on a nested
unescaped `{`, stop at the first unescaped `}` (offset returned). On
exhaustion the `end` accumulator (initially 0) is returned unchanged. -/
def scanBlockEnd : List EscItem → Nat → Res (Nat × List EscItem)
  | [], e => .ok (e, [])
  | (esc, ni, t) :: rest, e =>
    if esc = false ∧ t = lbrace then .err ⟨ni, .synError [.codeEnd]⟩
    else if esc = false ∧ t = rbrace then .ok (ni, rest)
    else scanBlockEnd rest e

/-- The main loop of `syntax.rs::lex` over the escape-iterator items,
carrying the current literal span `[lb, le)` and the token accumulator.
Fuel bounds loop iterations only (each consumes at least one item). -/
def lexGo : Nat → List EscItem → Str → Nat → Nat → List Token → Res (List Token)
  | _, [], _, lb, le, toks => .ok (toks ++ [⟨.literal, lb, le + 1⟩])
  | 0, _ :: _, _, _, _, _ => .fuelOut
  | fuel + 1, (esc, i, c) :: rest, code, lb, le, toks =>
    if esc = false ∧ c = lbrace then
      let toks1 := toks ++ [⟨.literal, lb, i⟩]
      match expectSymbol rest [.codeBegin] false with
      | .ok (_, rest2) =>
        match scanBlockEnd rest2 0 with
        | .ok (endv, rest3) =>
          match expectSymbol rest3 [.codeEnd] false with
          | .ok (_, rest4) =>
            let lb' := endv + 2
            let le' := min lb' (byteLen code - 1)
            match byteSlice code (i + 2) endv with
            | none => .panic
            | some block =>
              match lexCode (block.length + 1) (escapeItems block (i + 2) false) block (i + 2) toks1 with
              | .ok toks2 => lexGo fuel rest4 code lb' le' toks2
              | .err er => .err er
              | .panic => .panic
              | .fuelOut => .fuelOut
          | .err er => .err er
          | .panic => .panic
          | .fuelOut => .fuelOut
        | .err er => .err er
        | .panic => .panic
        | .fuelOut => .fuelOut
      | .err er => .err er
      | .panic => .panic
      | .fuelOut => .fuelOut
    else if esc = false ∧ c = rbrace then .err ⟨i, .synError [.codeBegin]⟩
    else if esc then
      if c ≠ lbrace ∧ c ≠ rbrace then .err ⟨i, .synError [.codeBegin, .codeEnd]⟩
      else lexGo fuel rest code lb i toks
    else lexGo fuel rest code lb i toks

/-- `syntax.rs::lex`: empty input yields no tokens; otherwise run the
main loop from a fresh escape iterator. -/
def lex (code : Str) : Res (List Token) :=
  if byteLen code = 0 then .ok []
  else lexGo (code.length + 1) (escapeItems code 0 false) code 0 0 []

/-- `Res.map`. -/
def Res.map {α β : Type} (f : α → β) : Res α → Res β
  | .ok a => .ok (f a)
  | .err e => .err e
  | .panic => .panic
  | .fuelOut => .fuelOut

/-- Parse-tree nodes (`syntax.rs::Node` with its `InnerNode` variants
flattened; every constructor carries the grapheme-offset span). -/
inductive Node where
  | lit (fc ec : Nat)
  | name (fc ec : Nat)
  | int (fc ec : Nat) (value : Nat)
  | range (fc ec : Nat) (start stop : Option Nat)
  | array (fc ec : Nat) (nm : Str) (start stop : Option Nat)
  | str (fc ec : Nat) (children : List Node)
  | mcrDef (fc ec : Nat)
  | mcrExp (fc ec : Nat)
  | pipe (fc ec : Nat)
  | newLine (fc ec : Nat)
  deriving Repr

/-- `Node::first_char`. -/
def Node.firstChar : Node → Nat
  | .lit fc _ => fc
  | .name fc _ => fc
  | .int fc _ _ => fc
  | .range fc _ _ _ => fc
  | .array fc _ _ _ _ => fc
  | .str fc _ _ => fc
  | .mcrDef fc _ => fc
  | .mcrExp fc _ => fc
  | .pipe fc _ => fc
  | .newLine fc _ => fc

/-- The character mapping of `Node::as_escaped_string`: re-run the escape
iterator over the (already byte-sliced) span text, turning `\n`/`\t`
escapes into control characters and passing everything else through. -/
def asEscaped (s : Str) : Str :=
  (escapeItems s 0 false).map
    (fun it =>
      if it.1 ∧ it.2.2 = 'n' then '\n'
      else if it.1 ∧ it.2.2 = 't' then '\t'
      else it.2.2)

/-- The `$(name)` interpolation scan of `syntax.rs::parse_string`,
carrying `first_literal`, `end_literal` and the child accumulator, and
returning all three at iterator exhaustion.  Fuel bounds iterations. -/
def parseStringGo : Nat → List EscItem → Nat → Nat → List Node → Res (List Node × Nat × Nat)
  | _, [], fl, el, nodes => .ok (nodes, fl, el)
  | 0, _ :: _, _, _, _ => .fuelOut
  | fuel + 1, (esc, i, c) :: rest, fl, el, nodes =>
    if esc = false ∧ c = '$' then
      let nodes1 := if i - fl ≠ 0 then nodes ++ [Node.lit fl i] else nodes
      match expectSymbol rest [.exprBegin] false with
      | .ok (_, r2) =>
        match expectSymbol r2 [.literal] false with
        | .ok (_, r3) =>
          match findBoundary r3 i .literal [.exprEnd] with
          | .ok (fl2, r4) =>
            parseStringGo fuel r4 (fl2 + 1) (fl2 + 1) (nodes1 ++ [Node.name (i + 2) fl2])
          | .err er => .err er
          | .panic => .panic
          | .fuelOut => .fuelOut
        | .err er => .err er
        | .panic => .panic
        | .fuelOut => .fuelOut
      | .err er => .err er
      | .panic => .panic
      | .fuelOut => .fuelOut
    else parseStringGo fuel rest fl i nodes

/-- `syntax.rs::parse_string`: split a quoted-string token's text into
interleaved literal/name children and wrap them in a `String` node. -/
def parseString (firstChar endChar : Nat) (string : Str) : Res Node :=
  match parseStringGo (string.length + 1) (escapeItems string firstChar false)
      (firstChar + 1) 0 [] with
  | .ok (nodes, fl, el) =>
    let nodes1 := if el - fl ≠ 0 then nodes ++ [Node.lit fl el] else nodes
    .ok (Node.str firstChar endChar nodes1)
  | .err er => .err er
  | .panic => .panic
  | .fuelOut => .fuelOut

/-- `syntax.rs::parse_range`: parse a `[a?:b?]` token's text into a
`Range` node with optional bounds; each bound's digits go through
`parse::<usize>().unwrap()` (the unwrap is a panic on overflow). -/
def parseRange (firstChar endChar : Nat) (range : Str) : Res Node :=
  let items := escapeItems range firstChar false
  match expectSymbol items [.rangeBegin] false with
  | .err er => .err er
  | .panic => .panic
  | .fuelOut => .fuelOut
  | .ok (_, r1) =>
    let afterFirst : Option Nat → Nat → List EscItem → Res Node := fun start sep r =>
      match expectSymbolR r [.int] false with
      | (.ok _, r2) =>
        match findBoundary r2 0 .int [.rangeEnd] with
        | .ok (bnd, _) =>
          match byteSlice range (sep - firstChar + 1) (bnd - firstChar) with
          | none => .panic
          | some tok =>
            match parseUsize tok with
            | none => .panic
            | some v => .ok (Node.range firstChar endChar start (some v))
        | .err er => .err er
        | .panic => .panic
        | .fuelOut => .fuelOut
      | (_, _) => .ok (Node.range firstChar endChar start none)
    match expectSymbolR r1 [.int] false with
    | (.ok _, r2) =>
      match findBoundary r2 0 .int [.rangeSep] with
      | .ok (sep, r3) =>
        match byteSlice range 1 (sep - firstChar) with
        | none => .panic
        | some tok =>
          match parseUsize tok with
          | none => .panic
          | some v => afterFirst (some v) sep r3
      | .err er => .err er
      | .panic => .panic
      | .fuelOut => .fuelOut
    | (_, r2) => afterFirst none (firstChar + 1) r2

/-- The first (structural) pass of `syntax.rs::ast`: map each token to a
node, re-parsing string and range token texts. -/
def pass1 : List Token → Str → Res (List Node)
  | [], _ => .ok []
  | t :: rest, code =>
    let cont : Node → Res (List Node) := fun n =>
      (pass1 rest code).map (fun l => n :: l)
    match t.tokenType with
    | .literal => cont (Node.lit t.firstChar t.endChar)
    | .int =>
      match byteSlice code t.firstChar t.endChar with
      | none => .panic
      | some s =>
        match parseUsize s with
        | none => .panic
        | some v => cont (Node.int t.firstChar t.endChar v)
    | .name => cont (Node.name t.firstChar t.endChar)
    | .pipe => cont (Node.pipe t.firstChar t.endChar)
    | .string =>
      match byteSlice code t.firstChar t.endChar with
      | none => .panic
      | some s =>
        match parseString t.firstChar t.endChar s with
        | .ok n => cont n
        | .err er => .err er
        | .panic => .panic
        | .fuelOut => .fuelOut
    | .range =>
      match byteSlice code t.firstChar t.endChar with
      | none => .panic
      | some s =>
        match parseRange t.firstChar t.endChar s with
        | .ok n => cont n
        | .err er => .err er
        | .panic => .panic
        | .fuelOut => .fuelOut
    | .mcrDef => cont (Node.mcrDef t.firstChar t.endChar)
    | .mcrExp => cont (Node.mcrExp t.firstChar t.endChar)
    | .newLine => cont (Node.newLine t.firstChar t.endChar)
    | _ => pass1 rest code

/-- The macro-body collection loop inside the second pass of `ast`:
gather nodes up to (and consuming) the next `NewLine`; a nested macro
marker is an error; exhaustion ends the body. Returns (children, rest). -/
def collectChildren : List Node → Res (List Node × List Node)
  | [] => .ok ([], [])
  | n :: rest =>
    match n with
    | .newLine _ _ => .ok ([], rest)
    | .mcrExp fc _ => .err ⟨fc, .nestedMcr⟩
    | .mcrDef fc _ => .err ⟨fc, .nestedMcr⟩
    | _ => (collectChildren rest).map (fun p => (n :: p.1, p.2))

/-- The macro-table key, `&n.as_str(code)[1..]`: the node's text with its
leading one-byte marker (`@` or `?`) removed. -/
def mcrName (code : Str) (fc ec : Nat) : Option Str :=
  (byteSlice code fc ec).map (List.drop 1)

/-- The second pass of `syntax.rs::ast` (macro expansion and name+range
fusion).  The table is an association list keyed by macro name; fuel
bounds iterations (each consumes at least one input node). -/
def fusion : Nat → List Node → Str → List (Str × List Node) → Res (List Node)
  | _, [], _, _ => .ok []
  | 0, _ :: _, _, _ => .fuelOut
  | fuel + 1, n :: rest, code, table =>
    match n with
    | .mcrDef fc ec =>
      match mcrName code fc ec with
      | none => .panic
      | some nm =>
        if table.any (fun p => p.1 = nm) then .err ⟨fc, .mcrRedefinition nm⟩
        else
          match collectChildren rest with
          | .ok ([], _) => .err ⟨fc, .emptyMcr⟩
          | .ok (c0 :: children, rest2) =>
            fusion fuel rest2 code ((nm, c0 :: children) :: table)
          | .err er => .err er
          | .panic => .panic
          | .fuelOut => .fuelOut
    | .mcrExp fc ec =>
      match mcrName code fc ec with
      | none => .panic
      | some nm =>
        match table.find? (fun p => p.1 = nm) with
        | some p => (fusion fuel rest code table).map (fun l => p.2 ++ l)
        | none => .err ⟨fc, .undefinedMcr nm⟩
    | .name fc ec =>
      match rest with
      | [] => .ok []
      | nn :: rest2 =>
        match nn with
        | .range _ nnec s e =>
          match byteSlice code fc ec with
          | none => .panic
          | some nmStr =>
            (fusion fuel rest2 code table).map (fun l => Node.array fc nnec nmStr s e :: l)
        | _ => (fusion fuel rest2 code table).map (fun l => Node.name fc ec :: nn :: l)
    | .newLine _ _ => fusion fuel rest code table
    | _ => (fusion fuel rest code table).map (fun l => n :: l)

/-- `syntax.rs::ast`: lex, structural pass, then macro/array fusion. -/
def ast (code : Str) : Res (List Node) :=
  (lex code).bind (fun toks =>
    (pass1 toks code).bind (fun nodes =>
      fusion (nodes.length + 1) nodes code []))

/-- Bytecode instructions (`ir.rs::Op`). -/
inductive Op where
  | putStr (value : Str)
  | flush
  | collapse
  | putName (start stop : Option Nat) (nm : Str)
  | setCounter (value : Nat)
  | incCounter
  | loadCounter
  | cmpCounterLessJmp (opIndex : Nat) (value : Option Nat) (nm : Str)
  | cmpArrayEmptyJmp (opIndex : Nat) (start stop : Option Nat) (nm : Str)
  | loadArrayItem (nm : Str)
  | putScopeVar (nm : Str)
  | destroyScope
  deriving DecidableEq, Repr

/-- `ir.rs::is_name_reserved`: the name starts with `_`. -/
def isNameReserved : Str → Bool
  | [] => false
  | c :: _ => c = '_'

/-- `ir.rs::is_name_array`: every character is uppercase. -/
def isNameArray (nm : Str) : Bool := nm.all Char.isUpper

/-- The reserved scope name `_`. -/
def nmUnderscore : Str := ['_']

/-- The reserved scope name `_item_`. -/
def nmItem : Str := ['_', 'i', 't', 'e', 'm', '_']

/-- The reserved scope name `_index_`. -/
def nmIndex : Str := ['_', 'i', 'n', 'd', 'e', 'x', '_']

/-- Suffix scan of `ir.rs::is_node_pipe`: is the first non-newline node
a pipe? -/
def isNodePipeL : List Node → Bool
  | [] => false
  | n :: rest =>
    match n with
    | .pipe _ _ => true
    | .newLine _ _ => isNodePipeL rest
    | _ => false

/-- `ir.rs::is_node_pipe` at an absolute index. -/
def isNodePipe (astL : List Node) (i : Nat) : Bool := isNodePipeL (astL.drop i)

/-- Suffix scan of `ir.rs::expect_string`: skip newlines, succeed on a
`String` node, and report a type/pipe error on anything else.  `lastFc`
is `ast[ast.len()-1].first_char`, used by the exhaustion error (`none`
models the index panic on an empty node list). -/
def expectStringGo : List Node → Option Nat → Res Unit
  | [], lastFc =>
    match lastFc with
    | some fc => .err ⟨fc, .synError [.string]⟩
    | none => .panic
  | n :: rest, lastFc =>
    match n with
    | .str _ _ _ => .ok ()
    | .int fc _ _ => .err ⟨fc, .typeError .string .int⟩
    | .range fc _ _ _ => .err ⟨fc, .typeError .string .array⟩
    | .array fc _ _ _ _ => .err ⟨fc, .typeError .string .array⟩
    | .lit fc _ => .err ⟨fc, .typeError .string .literal⟩
    | .name fc _ => .err ⟨fc, .typeError .string .name⟩
    | .pipe fc _ => .err ⟨fc, .pipeNoParent⟩
    | .newLine _ _ => expectStringGo rest lastFc
    | _ => .panic

/-- `ir.rs::expect_string` at an absolute index (an index past the end
of the list makes the exhaustion error's `ast[index - 1]` lookup panic). -/
def expectString (astL : List Node) (i : Nat) : Res Unit :=
  if i ≤ astL.length then
    expectStringGo (astL.drop i) ((astL.getLast?).map Node.firstChar)
  else .panic

/-- Emission of a `String` node's children in `gen_ir`: a `Name` child
fetches a variable (reserved names must be in the live scope set), a
`Literal` child pushes its escaped text; other kinds are
`unreachable!()`. -/
def genChildren : List Node → Str → List Str → Res (List Op)
  | [], _, _ => .ok []
  | n :: rest, code, scope =>
    match n with
    | .name fc ec =>
      match byteSlice code fc ec with
      | none => .panic
      | some nm =>
        if ¬ nm ∈ scope ∧ isNameReserved nm then .err ⟨fc, .undefinedVar nm⟩
        else (genChildren rest code scope).map (fun l => Op.putName none none nm :: l)
    | .lit fc ec =>
      match byteSlice code fc ec with
      | none => .panic
      | some s => (genChildren rest code scope).map (fun l => Op.putStr (asEscaped s) :: l)
    | _ => .panic

/-- The main loop of `ir.rs::gen_ir`.  State: current node index `i`, the
emitted instruction list `ops`, the pending-loop marker `arrayStart`
(node index and index of the loop's `CmpArrayEmptyJmp`), and the
compile-time scope name set.  Fuel bounds iterations; each iteration
advances `i`, so `astL.length + 1` fuel never runs out. -/
def genIrLoop (code : Str) (astL : List Node) :
    Nat → Nat → List Op → Option (Nat × Nat) → List Str → Res (List Op)
  | fuel, i, ops, arrayStart, scope =>
    match astL.get? i with
    | none => .ok ops
    | some node =>
      match fuel with
      | 0 => .fuelOut
      | fuel + 1 =>
        match node with
        | .lit fc ec =>
          match byteSlice code fc ec with
          | none => .panic
          | some s =>
            genIrLoop code astL fuel (i + 1)
              (ops ++ [Op.putStr (asEscaped s), Op.flush]) arrayStart scope
        | .int fc ec _ =>
          match byteSlice code fc ec with
          | none => .panic
          | some s =>
            let ops1 := ops ++ [Op.putStr s]
            if isNodePipe astL (i + 1) then
              match expectString astL (i + 2) with
              | .ok _ =>
                genIrLoop code astL fuel (i + 2)
                  (ops1 ++ [Op.putScopeVar nmUnderscore]) arrayStart (nmUnderscore :: scope)
              | .err er => .err er
              | .panic => .panic
              | .fuelOut => .fuelOut
            else genIrLoop code astL fuel (i + 1) (ops1 ++ [Op.flush]) arrayStart scope
        | .name fc ec =>
          match byteSlice code fc ec with
          | none => .panic
          | some nm =>
            if isNameReserved nm then .err ⟨fc, .undefinedVar nm⟩
            else
              let ops1 := ops ++ [Op.putName none none nm]
              if isNodePipe astL (i + 1) then
                match expectString astL (i + 2) with
                | .ok _ =>
                  genIrLoop code astL fuel (i + 2)
                    (ops1 ++ [Op.putScopeVar nmUnderscore]) arrayStart (nmUnderscore :: scope)
                | .err er => .err er
                | .panic => .panic
                | .fuelOut => .fuelOut
              else genIrLoop code astL fuel (i + 1) (ops1 ++ [Op.flush]) arrayStart scope
        | .array fc _ nm s e =>
          if isNameArray nm then
            let ops1 := ops ++ [Op.setCounter (s.getD 0), Op.cmpArrayEmptyJmp 0 s e nm]
            let ops2 := ops1 ++ [Op.loadArrayItem nm, Op.putScopeVar nmItem,
              Op.loadCounter, Op.putScopeVar nmIndex]
            if isNodePipe astL (i + 1) = false then .err ⟨fc, .arrayNotPiped⟩
            else
              match expectString astL (i + 2) with
              | .ok _ =>
                genIrLoop code astL fuel (i + 2) ops2
                  (some (i, ops1.length - 1)) (nmIndex :: nmItem :: scope)
              | .err er => .err er
              | .panic => .panic
              | .fuelOut => .fuelOut
          else
            let ops1 := ops ++ [Op.putName s e nm]
            if ¬ nm ∈ scope ∧ isNameReserved nm then .err ⟨fc, .undefinedVar nm⟩
            else if isNodePipe astL (i + 1) then
              match expectString astL (i + 2) with
              | .ok _ =>
                genIrLoop code astL fuel (i + 2)
                  (ops1 ++ [Op.putScopeVar nmUnderscore]) arrayStart (nmUnderscore :: scope)
              | .err er => .err er
              | .panic => .panic
              | .fuelOut => .fuelOut
            else genIrLoop code astL fuel (i + 1) (ops1 ++ [Op.flush]) arrayStart scope
        | .str _ _ children =>
          match genChildren children code scope with
          | .err er => .err er
          | .panic => .panic
          | .fuelOut => .fuelOut
          | .ok chOps =>
            let ops1 := ops ++ chOps ++ [Op.collapse]
            if isNodePipe astL (i + 1) then
              match expectString astL (i + 2) with
              | .ok _ =>
                genIrLoop code astL fuel (i + 2)
                  (ops1 ++ [Op.putScopeVar nmUnderscore]) arrayStart (nmUnderscore :: scope)
              | .err er => .err er
              | .panic => .panic
              | .fuelOut => .fuelOut
            else
              let ops2 := ops1 ++ [Op.flush, Op.destroyScope]
              match arrayStart with
              | none => genIrLoop code astL fuel (i + 1) ops2 none scope
              | some (ni, opI) =>
                match ops2.get? opI with
                | some (.cmpArrayEmptyJmp _ s2 e2 nm2) =>
                  let ops3 := ops2.set opI (Op.cmpArrayEmptyJmp (ops2.length + 1) s2 e2 nm2)
                  match astL.get? ni with
                  | some (.array _ _ nm3 _ e3) =>
                    genIrLoop code astL fuel (i + 1)
                      (ops3 ++ [Op.incCounter, Op.cmpCounterLessJmp opI e3 nm3]) none []
                  | _ => .panic
                | _ => .panic
        | .newLine _ _ => genIrLoop code astL fuel (i + 1) ops arrayStart scope
        | .pipe fc _ => .err ⟨fc, .pipeNoParent⟩
        | .range fc _ _ _ => .err ⟨fc, .arrayNoNewLine⟩
        | .mcrDef _ _ => .panic
        | .mcrExp _ _ => .panic

/-- `ir.rs::gen_ir`: run the generator loop from a fresh state. -/
def genIr (code : Str) (astL : List Node) : Res (List Op) :=
  genIrLoop code astL (astL.length + 1) 0 [] none []

/-- `vm.rs` string-variable tables (`BTreeMap<Box<str>, Box<str>>`),
modelled as association lists whose lookup takes the most recent
binding. -/
abbrev StringVars := List (Str × Str)

/-- Array-variable tables (`BTreeMap<Box<str>, Vec<Box<str>>>`). -/
abbrev ArrayVars := List (Str × List Str)

/-- Map lookup. -/
def lookupVar (m : StringVars) (k : Str) : Option Str :=
  (m.find? (fun p => p.1 = k)).map (fun p => p.2)

/-- Array-map lookup. -/
def lookupArr (m : ArrayVars) (k : Str) : Option (List Str) :=
  (m.find? (fun p => p.1 = k)).map (fun p => p.2)

/-- `vm.rs::VmError`. -/
inductive VmError where
  | endOfProgram
  | writeError
  | emptyStack
  | undefinedScopeVar
  | arrayIndexOverflow
  deriving DecidableEq, Repr

/-- `vm.rs::Vm` state plus the output sink (`out` collects every string
written by `Flush`, in write order; the sink itself never fails in this
model, so `writeError` is never produced). -/
structure VmState where
  counter : Nat
  pc : Nat
  stack : List Str
  vars : StringVars
  scope : StringVars
  arrays : ArrayVars
  out : List Str
  deriving Repr

/-- `Vm::new`. -/
def vmNew (vars : StringVars) (arrays : ArrayVars) : VmState :=
  { counter := 0, pc := 0, stack := [], vars := vars, scope := [], arrays := arrays, out := [] }

/-- `Vm::get_string_var`: reserved names resolve through the scope map
(`none` = `UndefinedScopeVar` fault); others through the external table,
absent keys yielding the empty string. -/
def getStringVar (st : VmState) (nm : Str) : Option Str :=
  if isNameReserved nm then lookupVar st.scope nm
  else some ((lookupVar st.vars nm).getD [])

/-- `Vm::get_array_var`: absent keys yield the empty array. -/
def getArrayVar (st : VmState) (nm : Str) : List Str :=
  (lookupArr st.arrays nm).getD []

/-- The `while start < end` loop of `Op::PutName`: concatenate
`gs[start]`, …, `gs[end-1]` (the count `end - start` is the fuel);
`none` models the index-out-of-bounds panic when the byte-length-derived
bound overruns the grapheme vector. -/
def sliceN (gs : List Str) : Nat → Nat → Option Str
  | _, 0 => some []
  | start, n + 1 =>
    match gs.get? start with
    | none => none
    | some g => (sliceN gs (start + 1) n).map (fun r => g ++ r)

/-- Result of one `Vm::step`. -/
inductive StepRes where
  | ok (s : VmState)
  | err (e : VmError)
  | panic
  deriving Repr

/-- The unconditional `self.pc += 1` at the end of `Vm::step`. -/
def stepAdv (s : VmState) : StepRes := .ok { s with pc := s.pc + 1 }

/-- `Vm::step`: execute `program[pc]` (or report `EndOfProgram`), then
advance the program counter by one — also after a taken jump. -/
def step (program : List Op) (st : VmState) : StepRes :=
  match program.get? st.pc with
  | none => .err .endOfProgram
  | some op =>
    match op with
    | .putStr v => stepAdv { st with stack := st.stack ++ [v] }
    | .flush => stepAdv { st with out := st.out ++ st.stack, stack := [] }
    | .collapse => stepAdv { st with stack := [st.stack.join] }
    | .putName s e nm =>
      match getStringVar st nm with
      | none => .err .undefinedScopeVar
      | some var =>
        let gs := graphemes var
        let start := s.getD 0
        let endv := min (byteLen var) (e.getD (byteLen var))
        match sliceN gs start (endv - start) with
        | none => .panic
        | some r => stepAdv { st with stack := st.stack ++ [r] }
    | .setCounter v => stepAdv { st with counter := v }
    | .incCounter => stepAdv { st with counter := st.counter + 1 }
    | .loadCounter => stepAdv { st with stack := st.stack ++ [(toString st.counter).data] }
    | .cmpCounterLessJmp t v nm =>
      let len := (getArrayVar st nm).length
      let bound := match v with | some b => min b len | none => len
      if st.counter < bound then stepAdv { st with pc := t } else stepAdv st
    | .cmpArrayEmptyJmp t s e nm =>
      let len := (getArrayVar st nm).length
      let endv := min len (e.getD len)
      if s.getD 0 ≥ endv ∨ endv = 0 then stepAdv { st with pc := t } else stepAdv st
    | .loadArrayItem nm =>
      match (getArrayVar st nm).get? st.counter with
      | none => .err .arrayIndexOverflow
      | some item => stepAdv { st with stack := st.stack ++ [item] }
    | .putScopeVar nm =>
      match st.stack.getLast? with
      | none => .err .emptyStack
      | some v => stepAdv { st with stack := st.stack.dropLast, scope := (nm, v) :: st.scope }
    | .destroyScope => stepAdv { st with scope := [] }

/-- Result of `Vm::run` (fuel-limited; `EndOfProgram` is consumed as the
normal termination signal, yielding `ok` with the final state). -/
inductive RunRes where
  | ok (s : VmState)
  | err (e : VmError)
  | panic
  | fuelOut
  deriving Repr

/-- `Vm::run` with an execution trace: the list of program-counter
values of every successfully executed instruction, in order. -/
def runT : Nat → List Op → VmState → RunRes × List Nat
  | 0, _, _ => (.fuelOut, [])
  | fuel + 1, prog, st =>
    match step prog st with
    | .err .endOfProgram => (.ok st, [])
    | .err e => (.err e, [])
    | .panic => (.panic, [])
    | .ok st2 =>
      let r := runT fuel prog st2
      (r.1, st.pc :: r.2)

/-- `Vm::run`: the result component of `runT`. -/
def run (fuel : Nat) (prog : List Op) (st : VmState) : RunRes :=
  (runT fuel prog st).1

/-- Is the instruction at pc `p` a `LoadArrayItem`? -/
def isLoadPc (prog : List Op) (p : Nat) : Bool :=
  match prog.get? p with
  | some (.loadArrayItem _) => true
  | _ => false

/-- Number of executed loop-body entries in a trace: how often the
instruction at an executed pc was `LoadArrayItem`. -/
def countLoads (prog : List Op) (trace : List Nat) : Nat :=
  trace.countP (isLoadPc prog)

/-- Whole-pipeline outcome: rendered text, typed compile error, typed VM
fault, panic, or exhausted fuel. -/
inductive PipeOut where
  | out (s : Str)
  | compileErr (e : CompileError)
  | vmErr (e : VmError)
  | panic
  | fuelOut
  deriving DecidableEq, Repr

/-- The full pipeline on a source text: `ast`, `gen_ir`, then a VM run
with the given external tables, joining everything written to the sink. -/
def render (src : Str) (vars : StringVars) (arrays : ArrayVars) (fuel : Nat) : PipeOut :=
  match (ast src).bind (fun nodes => genIr src nodes) with
  | .ok prog =>
    match run fuel prog (vmNew vars arrays) with
    | .ok st => .out st.out.join
    | .err e => .vmErr e
    | .panic => .panic
    | .fuelOut => .fuelOut
  | .err e => .compileErr e
  | .panic => .panic
  | .fuelOut => .fuelOut

/-- `true` exactly on the `panic` outcome of a compile stage. -/
def Res.isPanic {α : Type} : Res α → Bool
  | .panic => true
  | _ => false

/-- The variable name `name`. -/
def nmName : Str := ['n', 'a', 'm', 'e']

/-- A two-grapheme, four-byte value: `éé`. -/
def eAcc : Str := ['é', 'é']

/-- Source `{{ 5 | "$(_)" }}`. -/
def srcC8 : Str := "\x7b\x7b 5 | \"$(_)\" \x7d\x7d".data

/-- Source `{{name #c` newline `}}` (a name followed by a comment). -/
def srcC9 : Str := "\x7b\x7bname #c\n\x7d\x7d".data

/-- Source `éé` — two multi-byte graphemes, no directive block. -/
def srcC4 : Str := "éé".data

/-- Source `{{ 18446744073709551616 }}` — the integer literal is 2^64,
one past `usize::MAX`. -/
def srcC5 : Str := "\x7b\x7b 18446744073709551616 \x7d\x7d".data

/-- Source `{{ name }}`. -/
def srcNameVar : Str := "\x7b\x7b name \x7d\x7d".data

/-- Is a node a `NewLine` node? -/
def isNewLineNode : Node → Bool
  | .newLine _ _ => true
  | _ => false

/-- Is a node a `Name` node? -/
def isNameNode : Node → Bool
  | .name _ _ => true
  | _ => false

/-- Does a node list contain a top-level `NewLine` node? -/
def hasNewLineNode (l : List Node) : Bool := l.any isNewLineNode

/-- No `Name` node is immediately followed by a `NewLine` node. -/
def noNameNL : List Node → Bool
  | [] => true
  | [_] => true
  | a :: b :: rest => !(isNameNode a && isNewLineNode b) && noNameNL (b :: rest)

/-- C3.  The claim says a fetch-var on a bound name never faults and
clamps with the value's GRAPHEME count.  `vm.rs:113` instead clamps with
`var.len()` — the BYTE length — and then indexes the grapheme vector
with it (`graphemes[start]`, `vm.rs:116`), so a non-ASCII value makes
the VM panic: with `name` bound to the 2-grapheme/4-byte value `éé`, a
plain fetch-var computes end = 4 and panics at `graphemes[2]`.  This
theorem evaluates the code at that failing input. -/
theorem C3_putName_panics_on_nonascii :
    step [Op.putName none none nmName] (vmNew [(nmName, eAcc)] []) = .panic := rfl

/-- C4.  The claim says a directive-free source renders verbatim,
including multi-byte sequences.  The final literal token's span is in
grapheme offsets (`syntax.rs:273`), but `Node::as_escaped_string`
byte-slices the source with it (`syntax.rs:129`), so the 2-grapheme /
4-byte source `éé` is truncated to its first 2 bytes and renders as the
single character `é`.  This theorem evaluates the pipeline at that
failing input and records that the output differs from the source. -/
theorem C4_roundtrip_truncates_multibyte :
    render srcC4 [] [] 10 = .out ['é'] ∧ srcC4 ≠ ['é'] := by
  constructor
  · rfl
  · decide

/-- C5.  The claim says the pipeline never panics, explicitly including
arbitrarily long integer literals and non-ASCII variable values.  Both
named triggers do panic: `syntax.rs:509` parses integer literal text
with `.parse::<usize>().unwrap()`, which panics on `2^64`; and
`vm.rs:116` indexes the grapheme vector with a byte-derived bound, which
panics when `{{ name }}` is rendered with `name` bound to `éé`.  This
theorem evaluates both failing inputs. -/
theorem C5_pipeline_panics :
    (ast srcC5).isPanic = true ∧ render srcNameVar [(nmName, eAcc)] [] 10 = .panic := by
  constructor
  · rfl
  · rfl

/-- C9 counterexample.  The claim says the node list returned by the
parse contains no `NewLine` node whatever precedes it.  But the fusion
pass's `Name` case (`syntax.rs:583-601`) consumes the following node
with a one-item lookahead and re-emits it UNPROCESSED when it is not a
`Range`; a comment after a name (`{{name #c\n}}`) produces exactly a
`Name` token followed by a `NewLine` token, and the `NewLine` node
survives into the parse output. -/
theorem C9_newline_survives_after_name :
    Res.map hasNewLineNode (ast srcC9) = .ok true := rfl

/-- C6.  `Vm::get_string_var` (`vm.rs:52-62`) resolves a reserved name
(leading `_`) only through the scope map, faulting with
`UndefinedScopeVar` when absent; a non-reserved name absent from the
external table yields the empty string, which the slice loop then pushes
unchanged — no fault and no panic, whatever the bounds. -/
theorem C6_fetch_var_absent :
    (∀ (prog : List Op) (st : VmState) (nm : Str) (s e : Option Nat),
      prog.get? st.pc = some (Op.putName s e nm) →
      isNameReserved nm = false →
      lookupVar st.vars nm = none →
      step prog st = .ok { st with stack := st.stack ++ [[]], pc := st.pc + 1 }) ∧
    (∀ (prog : List Op) (st : VmState) (nm : Str) (s e : Option Nat),
      prog.get? st.pc = some (Op.putName s e nm) →
      isNameReserved nm = true →
      lookupVar st.scope nm = none →
      step prog st = .err .undefinedScopeVar) := by
  constructor
  · intro prog st nm s e hget hres hlook
    rw [List.get?_eq_getElem?] at hget
    simp [step, hget, getStringVar, hres, hlook, graphemes, byteLen, sliceN, stepAdv]
  · intro prog st nm s e hget hres hlook
    rw [List.get?_eq_getElem?] at hget
    simp [step, hget, getStringVar, hres, hlook]

/-- Witness for C6 at concrete inputs: `name` absent from an empty
variable table pushes the empty string; `_item_` absent from an empty
scope faults. -/
theorem C6_fetch_var_absent_witness :
    step [Op.putName none none nmName] (vmNew [] []) =
      .ok { vmNew [] [] with stack := (vmNew [] []).stack ++ [[]], pc := (vmNew [] []).pc + 1 } ∧
    step [Op.putName none none nmItem] (vmNew [] []) = .err .undefinedScopeVar :=
  ⟨C6_fetch_var_absent.1 _ _ _ _ _ rfl rfl rfl,
   C6_fetch_var_absent.2 _ _ _ _ _ rfl rfl rfl⟩

/-- Peeling lemma: one successful `Vm::step` consumes one unit of fuel
and prepends the executed pc to the trace. -/
theorem runT_peel {prog : List Op} {st st2 : VmState} (f : Nat)
    (h : step prog st = .ok st2) :
    runT (f + 1) prog st = ((runT f prog st2).1, st.pc :: (runT f prog st2).2) := by
  simp [runT, h]

/-- Peeling lemma: `EndOfProgram` terminates the run with the current
state. -/
theorem runT_end {prog : List Op} {st : VmState} (f : Nat)
    (h : step prog st = .err .endOfProgram) :
    runT (f + 1) prog st = (.ok st, []) := by
  simp [runT, h]

/-- The three-node parse of `{{ NAME[s:e] | "x" }}`'s directive part: an
array node, its pipe, and a one-literal body template (the literal's
span `[0,1)` points at the one-character source `['x']`). -/
def loopAst (nm : Str) (s e : Option Nat) : List Node :=
  [Node.array 0 0 nm s e, Node.pipe 0 0, Node.str 0 1 [Node.lit 0 1]]

/-- The instruction list `gen_ir` emits for `loopAst` (checked by
`genIr_loopAst`): counter setup, the patched skip jump (target 11 = the
index of the closing `CmpCounterLessJmp`), the `_item_`/`_index_`
bindings, the body, and the closing increment + back jump (target 1 =
the index of the `CmpArrayEmptyJmp`, so the landing index 2 is the
`LoadArrayItem`). -/
def loopOps (nm : Str) (s e : Option Nat) : List Op :=
  [Op.setCounter (s.getD 0),
   Op.cmpArrayEmptyJmp 11 s e nm,
   Op.loadArrayItem nm,
   Op.putScopeVar nmItem,
   Op.loadCounter,
   Op.putScopeVar nmIndex,
   Op.putStr ['x'],
   Op.collapse,
   Op.flush,
   Op.destroyScope,
   Op.incCounter,
   Op.cmpCounterLessJmp 1 e nm]

/-- `gen_ir` on the canonical loop ast produces `loopOps`. -/
theorem genIr_loopAst (nm : Str) (s e : Option Nat) (h : isNameArray nm = true) :
    genIr ['x'] (loopAst nm s e) = .ok (loopOps nm s e) := by
  simp [genIr, loopAst, genIrLoop, h, isNodePipe, isNodePipeL, expectString,
    expectStringGo, genChildren, byteSlice, byteSplitAt, charSize, asEscaped,
    escapeItems, loopOps, List.getLast?, Res.map,
    show 'x'.utf8Size = 1 from rfl]

/-- C10.  An all-uppercase array name absent from the external array
table resolves to the empty array (`vm.rs:65-70`), so the loop's
`CmpArrayEmptyJmp` always takes its jump (`vm.rs:144-151`); a generated
loop over such a name runs to normal completion with an empty output and
no fault — the body (and its `LoadArrayItem`) never executes. -/
theorem C10_absent_array_is_empty :
    (∀ (prog : List Op) (st : VmState) (nm : Str) (t : Nat) (s e : Option Nat),
      prog.get? st.pc = some (Op.cmpArrayEmptyJmp t s e nm) →
      lookupArr st.arrays nm = none →
      step prog st = .ok { st with pc := t + 1 }) ∧
    (∀ (nm : Str) (s e : Option Nat) (V : StringVars) (A : ArrayVars),
      isNameArray nm = true →
      lookupArr A nm = none →
      genIr ['x'] (loopAst nm s e) = .ok (loopOps nm s e) ∧
      runT 3 (loopOps nm s e) (vmNew V A) =
        (.ok { vmNew V A with counter := s.getD 0, pc := 12 }, [0, 1]) ∧
      countLoads (loopOps nm s e) [0, 1] = 0) := by
  constructor
  · intro prog st nm t s e hget hlook
    rw [List.get?_eq_getElem?] at hget
    simp [step, hget, getArrayVar, hlook, stepAdv]
  · intro nm s e V A hup hlook
    refine ⟨genIr_loopAst nm s e hup, ?_, ?_⟩
    · have g1 : (loopOps nm s e)[(1 : Nat)]? = some (Op.cmpArrayEmptyJmp 11 s e nm) := rfl
      have g12 : (loopOps nm s e)[(12 : Nat)]? = (none : Option Op) := rfl
      have s0 : step (loopOps nm s e) (vmNew V A) =
          .ok { vmNew V A with counter := s.getD 0, pc := 1 } := by
        simp [step, loopOps, vmNew, stepAdv]
      have s1 : step (loopOps nm s e) { vmNew V A with counter := s.getD 0, pc := 1 } =
          .ok { vmNew V A with counter := s.getD 0, pc := 12 } := by
        simp [step, g1, getArrayVar, hlook, stepAdv, vmNew]
      have s2 : step (loopOps nm s e) { vmNew V A with counter := s.getD 0, pc := 12 } =
          .err .endOfProgram := by
        simp [step, g12, vmNew]
      rw [show (3 : Nat) = 2 + 1 from rfl, runT_peel 2 s0,
        show (2 : Nat) = 1 + 1 from rfl, runT_peel 1 s1,
        show (1 : Nat) = 0 + 1 from rfl, runT_end 0 s2]
      simp [vmNew]
    · rfl

/-- Witness for C10 at concrete inputs: the array name `ARR` with empty
tables and bounds `[0:100]`. -/
theorem C10_absent_array_is_empty_witness :
    step [Op.cmpArrayEmptyJmp 7 none none (['A', 'R', 'R'] : Str)] (vmNew [] []) =
      .ok { vmNew [] [] with pc := 7 + 1 } ∧
    runT 3 (loopOps ['A', 'R', 'R'] (some 0) (some 100)) (vmNew [] []) =
      (.ok { vmNew [] [] with counter := (some 0).getD 0, pc := 12 }, [0, 1]) :=
  ⟨C10_absent_array_is_empty.1 _ _ _ _ _ _ rfl rfl,
   (C10_absent_array_is_empty.2 ['A', 'R', 'R'] (some 0) (some 100) [] [] rfl rfl).2.1⟩

/-- C8.  Pipe contract: the concrete source `{{ 5 | "$(_)" }}` renders
`5` (the integer's text is bound to the scope name `_` and interpolated
by the piped string); `gen_ir` rejects an all-uppercase array node whose
lookahead finds no pipe with the array-must-be-piped error
(`ir.rs:230-233`); and a `Pipe` node reached directly by the generator
(no preceding value consumed it) fails with pipe-has-no-parent
(`ir.rs:308-310`). -/
theorem C8_pipe_contract :
    render srcC8 [] [] 20 = .out ['5'] ∧
    (∀ (code : Str) (astL : List Node) (fuel i : Nat) (ops : List Op)
        (arrSt : Option (Nat × Nat)) (sc : List Str) (fc ec : Nat) (nm : Str)
        (s e : Option Nat),
      astL.get? i = some (Node.array fc ec nm s e) →
      isNameArray nm = true →
      isNodePipe astL (i + 1) = false →
      genIrLoop code astL (fuel + 1) i ops arrSt sc = .err ⟨fc, .arrayNotPiped⟩) ∧
    (∀ (code : Str) (astL : List Node) (fuel i : Nat) (ops : List Op)
        (arrSt : Option (Nat × Nat)) (sc : List Str) (fc ec : Nat),
      astL.get? i = some (Node.pipe fc ec) →
      genIrLoop code astL (fuel + 1) i ops arrSt sc = .err ⟨fc, .pipeNoParent⟩) := by
  refine ⟨rfl, ?_, ?_⟩
  · intro code astL fuel i ops arrSt sc fc ec nm s e hget hup hpipe
    rw [genIrLoop.eq_def]
    rw [List.get?_eq_getElem?] at hget
    simp [hget, hup, hpipe]
  · intro code astL fuel i ops arrSt sc fc ec hget
    rw [genIrLoop.eq_def]
    rw [List.get?_eq_getElem?] at hget
    simp [hget]

/-- Witness for C8's universal parts at concrete inputs: a bare
`ARR[0:1]` node with nothing after it, and a bare pipe node. -/
theorem C8_pipe_contract_witness :
    genIrLoop [] [Node.array 4 9 ['A', 'R', 'R'] (some 0) (some 1)] 1 0 [] none [] =
      .err ⟨4, .arrayNotPiped⟩ ∧
    genIrLoop [] [Node.pipe 3 4] 1 0 [] none [] = .err ⟨3, .pipeNoParent⟩ :=
  ⟨C8_pipe_contract.2.1 [] _ 0 0 [] none [] 4 9 ['A', 'R', 'R'] (some 0) (some 1) rfl rfl rfl,
   C8_pipe_contract.2.2 [] _ 0 0 [] none [] 3 4 rfl⟩

/-- Is a node a macro marker (`MacroDef` or `MacroExp`)? -/
def isMcrMarker : Node → Bool
  | .mcrDef _ _ => true
  | .mcrExp _ _ => true
  | _ => false

/-- A macro marker inside a macro body (before the terminating newline)
makes the collection loop fail with the nested-macro error at the
marker's offset. -/
theorem collectChildren_nested :
    ∀ (pre : List Node) (n2 : Node) (rest2 : List Node),
      (∀ x ∈ pre, isNewLineNode x = false ∧ isMcrMarker x = false) →
      isMcrMarker n2 = true →
      collectChildren (pre ++ n2 :: rest2) = .err ⟨n2.firstChar, .nestedMcr⟩ := by
  intro pre
  induction pre with
  | nil =>
    intro n2 rest2 _ hm
    cases n2 <;> simp_all [collectChildren, isMcrMarker, Node.firstChar]
  | cons x pre ih =>
    intro n2 rest2 hpre hm
    have hx := hpre x (by simp)
    have hrec := ih n2 rest2 (fun y hy => hpre y (by simp [hy])) hm
    cases x with
    | newLine a b => simp [isNewLineNode] at hx
    | mcrDef a b => simp [isMcrMarker] at hx
    | mcrExp a b => simp [isMcrMarker] at hx
    | lit a b => simp [collectChildren, hrec, Res.map]
    | name a b => simp [collectChildren, hrec, Res.map]
    | int a b v => simp [collectChildren, hrec, Res.map]
    | range a b s e => simp [collectChildren, hrec, Res.map]
    | array a b nmx s e => simp [collectChildren, hrec, Res.map]
    | str a b ch => simp [collectChildren, hrec, Res.map]
    | pipe a b => simp [collectChildren, hrec, Res.map]

/-- C7.  Macro hygiene in the fusion pass (`syntax.rs:541-582`):
redefining a name already in the macro table fails with a redefinition
error naming it; expanding a name absent from the table fails with an
undefined-macro error naming it; a macro marker inside a macro body
before its terminating newline fails with nested-macro (at the nested
marker's offset); and a body whose collection yields zero nodes fails
with empty-macro. -/
theorem C7_macro_hygiene :
    (∀ (fuel : Nat) (rest : List Node) (code : Str) (table : List (Str × List Node))
        (fc ec : Nat) (nm : Str),
      mcrName code fc ec = some nm →
      table.any (fun p => p.1 = nm) = true →
      fusion (fuel + 1) (Node.mcrDef fc ec :: rest) code table =
        .err ⟨fc, .mcrRedefinition nm⟩) ∧
    (∀ (fuel : Nat) (rest : List Node) (code : Str) (table : List (Str × List Node))
        (fc ec : Nat) (nm : Str),
      mcrName code fc ec = some nm →
      table.find? (fun p => p.1 = nm) = none →
      fusion (fuel + 1) (Node.mcrExp fc ec :: rest) code table =
        .err ⟨fc, .undefinedMcr nm⟩) ∧
    (∀ (fuel : Nat) (pre : List Node) (n2 : Node) (rest2 : List Node) (code : Str)
        (table : List (Str × List Node)) (fc ec : Nat) (nm : Str),
      mcrName code fc ec = some nm →
      table.any (fun p => p.1 = nm) = false →
      (∀ x ∈ pre, isNewLineNode x = false ∧ isMcrMarker x = false) →
      isMcrMarker n2 = true →
      fusion (fuel + 1) (Node.mcrDef fc ec :: (pre ++ n2 :: rest2)) code table =
        .err ⟨n2.firstChar, .nestedMcr⟩) ∧
    (∀ (fuel : Nat) (rest : List Node) (code : Str) (table : List (Str × List Node))
        (fc ec a b : Nat) (nm : Str),
      mcrName code fc ec = some nm →
      table.any (fun p => p.1 = nm) = false →
      fusion (fuel + 1) (Node.mcrDef fc ec :: Node.newLine a b :: rest) code table =
        .err ⟨fc, .emptyMcr⟩) := by
  refine ⟨?_, ?_, ?_, ?_⟩
  · intro fuel rest code table fc ec nm hname hmem
    simp [fusion, hname, hmem]
  · intro fuel rest code table fc ec nm hname hfind
    simp [fusion, hname, hfind]
  · intro fuel pre n2 rest2 code table fc ec nm hname hfresh hpre hm
    have hc := collectChildren_nested pre n2 rest2 hpre hm
    simp [fusion, hname, hfresh, hc]
  · intro fuel rest code table fc ec a b nm hname hfresh
    simp [fusion, hname, hfresh, collectChildren]

/-- Witness for C7 at concrete inputs over the two-character source
`@x`: redefinition of `x`, expansion of undefined `x`, a nested marker
after a definition, and an empty body. -/
theorem C7_macro_hygiene_witness :
    fusion 1 [Node.mcrDef 0 2] ['@', 'x'] [(['x'], [Node.int 0 1 1])] =
      .err ⟨0, .mcrRedefinition ['x']⟩ ∧
    fusion 1 [Node.mcrExp 0 2] ['@', 'x'] [] = .err ⟨0, .undefinedMcr ['x']⟩ ∧
    fusion 1 [Node.mcrDef 0 2, Node.mcrExp 5 6] ['@', 'x'] [] = .err ⟨5, .nestedMcr⟩ ∧
    fusion 1 [Node.mcrDef 0 2, Node.newLine 3 4] ['@', 'x'] [] = .err ⟨0, .emptyMcr⟩ :=
  ⟨C7_macro_hygiene.1 0 [] ['@', 'x'] [(['x'], [Node.int 0 1 1])] 0 2 ['x'] rfl rfl,
   C7_macro_hygiene.2.1 0 [] ['@', 'x'] [] 0 2 ['x'] rfl rfl,
   C7_macro_hygiene.2.2.1 0 [] (Node.mcrExp 5 6) [] ['@', 'x'] [] 0 2 ['x'] rfl rfl
     (by simp) rfl,
   C7_macro_hygiene.2.2.2 0 [] ['@', 'x'] [] 0 2 3 4 ['x'] rfl rfl⟩

/-- A successful macro-body collection yields children without `NewLine`
nodes (collection stops at the first one) and a remainder that is a
suffix of the input. -/
theorem collectChildren_ok :
    ∀ (l cs rest : List Node), collectChildren l = .ok (cs, rest) →
      hasNewLineNode cs = false ∧ ∃ k, rest = l.drop k := by
  intro l
  induction l with
  | nil =>
    intro cs rest h
    simp [collectChildren] at h
    obtain ⟨h1, h2⟩ := h
    subst h1; subst h2
    exact ⟨rfl, ⟨0, rfl⟩⟩
  | cons n rest' ih =>
    intro cs rest h
    cases n with
    | newLine a b =>
      simp [collectChildren] at h
      obtain ⟨h1, h2⟩ := h
      subst h1; subst h2
      exact ⟨rfl, ⟨1, rfl⟩⟩
    | mcrDef a b => simp [collectChildren] at h
    | mcrExp a b => simp [collectChildren] at h
    | lit a b =>
      cases hc : collectChildren rest' with
      | ok p =>
        obtain ⟨cs', rest''⟩ := p
        simp [collectChildren, hc, Res.map] at h
        obtain ⟨h1, h2⟩ := h
        obtain ⟨hnl, k, hk⟩ := ih cs' rest'' hc
        subst h1; subst h2; subst hk
        exact ⟨by simp [hasNewLineNode, isNewLineNode] at hnl ⊢; exact hnl, ⟨k + 1, rfl⟩⟩
      | err e => simp [collectChildren, hc, Res.map] at h
      | panic => simp [collectChildren, hc, Res.map] at h
      | fuelOut => simp [collectChildren, hc, Res.map] at h
    | name a b =>
      cases hc : collectChildren rest' with
      | ok p =>
        obtain ⟨cs', rest''⟩ := p
        simp [collectChildren, hc, Res.map] at h
        obtain ⟨h1, h2⟩ := h
        obtain ⟨hnl, k, hk⟩ := ih cs' rest'' hc
        subst h1; subst h2; subst hk
        exact ⟨by simp [hasNewLineNode, isNewLineNode] at hnl ⊢; exact hnl, ⟨k + 1, rfl⟩⟩
      | err e => simp [collectChildren, hc, Res.map] at h
      | panic => simp [collectChildren, hc, Res.map] at h
      | fuelOut => simp [collectChildren, hc, Res.map] at h
    | int a b v =>
      cases hc : collectChildren rest' with
      | ok p =>
        obtain ⟨cs', rest''⟩ := p
        simp [collectChildren, hc, Res.map] at h
        obtain ⟨h1, h2⟩ := h
        obtain ⟨hnl, k, hk⟩ := ih cs' rest'' hc
        subst h1; subst h2; subst hk
        exact ⟨by simp [hasNewLineNode, isNewLineNode] at hnl ⊢; exact hnl, ⟨k + 1, rfl⟩⟩
      | err e => simp [collectChildren, hc, Res.map] at h
      | panic => simp [collectChildren, hc, Res.map] at h
      | fuelOut => simp [collectChildren, hc, Res.map] at h
    | range a b s e =>
      cases hc : collectChildren rest' with
      | ok p =>
        obtain ⟨cs', rest''⟩ := p
        simp [collectChildren, hc, Res.map] at h
        obtain ⟨h1, h2⟩ := h
        obtain ⟨hnl, k, hk⟩ := ih cs' rest'' hc
        subst h1; subst h2; subst hk
        exact ⟨by simp [hasNewLineNode, isNewLineNode] at hnl ⊢; exact hnl, ⟨k + 1, rfl⟩⟩
      | err e2 => simp [collectChildren, hc, Res.map] at h
      | panic => simp [collectChildren, hc, Res.map] at h
      | fuelOut => simp [collectChildren, hc, Res.map] at h
    | array a b nmx s e =>
      cases hc : collectChildren rest' with
      | ok p =>
        obtain ⟨cs', rest''⟩ := p
        simp [collectChildren, hc, Res.map] at h
        obtain ⟨h1, h2⟩ := h
        obtain ⟨hnl, k, hk⟩ := ih cs' rest'' hc
        subst h1; subst h2; subst hk
        exact ⟨by simp [hasNewLineNode, isNewLineNode] at hnl ⊢; exact hnl, ⟨k + 1, rfl⟩⟩
      | err e2 => simp [collectChildren, hc, Res.map] at h
      | panic => simp [collectChildren, hc, Res.map] at h
      | fuelOut => simp [collectChildren, hc, Res.map] at h
    | str a b ch =>
      cases hc : collectChildren rest' with
      | ok p =>
        obtain ⟨cs', rest''⟩ := p
        simp [collectChildren, hc, Res.map] at h
        obtain ⟨h1, h2⟩ := h
        obtain ⟨hnl, k, hk⟩ := ih cs' rest'' hc
        subst h1; subst h2; subst hk
        exact ⟨by simp [hasNewLineNode, isNewLineNode] at hnl ⊢; exact hnl, ⟨k + 1, rfl⟩⟩
      | err e => simp [collectChildren, hc, Res.map] at h
      | panic => simp [collectChildren, hc, Res.map] at h
      | fuelOut => simp [collectChildren, hc, Res.map] at h
    | pipe a b =>
      cases hc : collectChildren rest' with
      | ok p =>
        obtain ⟨cs', rest''⟩ := p
        simp [collectChildren, hc, Res.map] at h
        obtain ⟨h1, h2⟩ := h
        obtain ⟨hnl, k, hk⟩ := ih cs' rest'' hc
        subst h1; subst h2; subst hk
        exact ⟨by simp [hasNewLineNode, isNewLineNode] at hnl ⊢; exact hnl, ⟨k + 1, rfl⟩⟩
      | err e => simp [collectChildren, hc, Res.map] at h
      | panic => simp [collectChildren, hc, Res.map] at h
      | fuelOut => simp [collectChildren, hc, Res.map] at h

/-- `noNameNL` is preserved by dropping the head. -/
theorem noNameNL_tail (a : Node) (l : List Node) (h : noNameNL (a :: l) = true) :
    noNameNL l = true := by
  cases l with
  | nil => rfl
  | cons b r =>
    have := h
    simp [noNameNL, Bool.and_eq_true] at this
    exact this.2

/-- `noNameNL` is preserved by dropping any prefix. -/
theorem noNameNL_drop : ∀ (k : Nat) (l : List Node), noNameNL l = true →
    noNameNL (l.drop k) = true := by
  intro k
  induction k with
  | zero => intro l h; simpa using h
  | succ k ih =>
    intro l h
    cases l with
    | nil => rfl
    | cons a r => exact ih r (noNameNL_tail a r h)

/-- C9 amended.  Bare `NewLine` nodes are dropped by the fusion pass
except when one immediately follows a `Name` node (the `Name` lookahead
re-emits it unprocessed, see `C9_newline_survives_after_name`): for
every input node list in which no `Name` is immediately followed by a
`NewLine`, and every macro table whose stored bodies contain no
top-level `NewLine`, a successful fusion output contains no `NewLine`
node — whatever other node precedes each `NewLine`. -/
theorem C9_newline_dropped_unless_after_name :
    ∀ (fuel : Nat) (nodes : List Node) (code : Str)
      (table : List (Str × List Node)) (out : List Node),
      noNameNL nodes = true →
      table.all (fun p => !hasNewLineNode p.2) = true →
      fusion fuel nodes code table = .ok out →
      hasNewLineNode out = false := by
  intro fuel
  induction fuel with
  | zero =>
    intro nodes code table out hn ht hok
    cases nodes with
    | nil => simp [fusion] at hok; subst hok; rfl
    | cons n rest => simp [fusion] at hok
  | succ fuel ih =>
    intro nodes code table out hn ht hok
    cases nodes with
    | nil => simp [fusion] at hok; subst hok; rfl
    | cons n rest =>
      cases n with
      | newLine a b =>
        exact ih rest code table out (noNameNL_tail _ _ hn) ht (by simpa [fusion] using hok)
      | mcrDef fc ec =>
        cases hmn : mcrName code fc ec with
        | none => simp [fusion, hmn] at hok
        | some nm =>
          cases hany : table.any (fun p => p.1 = nm) with
          | true => simp [fusion, hmn, hany] at hok
          | false =>
            cases hc : collectChildren rest with
            | ok p =>
              obtain ⟨cs, rest2⟩ := p
              cases cs with
              | nil => simp [fusion, hmn, hany, hc] at hok
              | cons c0 cs' =>
                simp only [fusion, hmn, hany, hc] at hok
                obtain ⟨hnlcs, k, hk⟩ := collectChildren_ok rest (c0 :: cs') rest2 hc
                refine ih rest2 code ((nm, c0 :: cs') :: table) out ?_ ?_ hok
                · rw [hk]
                  exact noNameNL_drop k rest (noNameNL_tail _ _ hn)
                · simp only [List.all_cons, hnlcs, Bool.not_false, Bool.true_and]
                  exact ht
            | err e => simp [fusion, hmn, hany, hc] at hok
            | panic => simp [fusion, hmn, hany, hc] at hok
            | fuelOut => simp [fusion, hmn, hany, hc] at hok
      | mcrExp fc ec =>
        cases hmn : mcrName code fc ec with
        | none => simp [fusion, hmn] at hok
        | some nm =>
          cases hfind : table.find? (fun p => p.1 = nm) with
          | none => simp [fusion, hmn, hfind] at hok
          | some p =>
            cases hfus : fusion fuel rest code table with
            | ok l =>
              simp only [fusion, hmn, hfind, hfus, Res.map] at hok
              have hmem := List.mem_of_find?_eq_some hfind
              have hp2 : hasNewLineNode p.2 = false := by
                have := List.all_eq_true.mp ht p hmem
                simpa using this
              have hl := ih rest code table l (noNameNL_tail _ _ hn) ht hfus
              rw [← Res.ok.inj hok]
              simp [hasNewLineNode, List.any_append] at hp2 hl ⊢
              exact ⟨hp2, hl⟩
            | err e => simp [fusion, hmn, hfind, hfus, Res.map] at hok
            | panic => simp [fusion, hmn, hfind, hfus, Res.map] at hok
            | fuelOut => simp [fusion, hmn, hfind, hfus, Res.map] at hok
      | name fc ec =>
        cases rest with
        | nil =>
          simp [fusion] at hok
          subst hok; rfl
        | cons nn rest2 =>
          have hn2 : noNameNL rest2 = true :=
            noNameNL_tail _ _ (noNameNL_tail _ _ hn)
          cases nn with
          | newLine a b => simp [noNameNL, isNameNode, isNewLineNode] at hn
          | range a b s e =>
            cases hbs : byteSlice code fc ec with
            | none => simp [fusion, hbs] at hok
            | some nmStr =>
              cases hfus : fusion fuel rest2 code table with
              | ok l =>
                simp only [fusion, hbs, hfus, Res.map] at hok
                have hl := ih rest2 code table l hn2 ht hfus
                rw [← Res.ok.inj hok]
                simpa [hasNewLineNode, isNewLineNode] using hl
              | err e2 => simp [fusion, hbs, hfus, Res.map] at hok
              | panic => simp [fusion, hbs, hfus, Res.map] at hok
              | fuelOut => simp [fusion, hbs, hfus, Res.map] at hok
          | lit a b =>
            cases hfus : fusion fuel rest2 code table with
            | ok l =>
              simp only [fusion, hfus, Res.map] at hok
              have hl := ih rest2 code table l hn2 ht hfus
              rw [← Res.ok.inj hok]
              simpa [hasNewLineNode, isNewLineNode] using hl
            | err e => simp [fusion, hfus, Res.map] at hok
            | panic => simp [fusion, hfus, Res.map] at hok
            | fuelOut => simp [fusion, hfus, Res.map] at hok
          | name a b =>
            cases hfus : fusion fuel rest2 code table with
            | ok l =>
              simp only [fusion, hfus, Res.map] at hok
              have hl := ih rest2 code table l hn2 ht hfus
              rw [← Res.ok.inj hok]
              simpa [hasNewLineNode, isNewLineNode] using hl
            | err e => simp [fusion, hfus, Res.map] at hok
            | panic => simp [fusion, hfus, Res.map] at hok
            | fuelOut => simp [fusion, hfus, Res.map] at hok
          | int a b v =>
            cases hfus : fusion fuel rest2 code table with
            | ok l =>
              simp only [fusion, hfus, Res.map] at hok
              have hl := ih rest2 code table l hn2 ht hfus
              rw [← Res.ok.inj hok]
              simpa [hasNewLineNode, isNewLineNode] using hl
            | err e => simp [fusion, hfus, Res.map] at hok
            | panic => simp [fusion, hfus, Res.map] at hok
            | fuelOut => simp [fusion, hfus, Res.map] at hok
          | array a b nmx s e =>
            cases hfus : fusion fuel rest2 code table with
            | ok l =>
              simp only [fusion, hfus, Res.map] at hok
              have hl := ih rest2 code table l hn2 ht hfus
              rw [← Res.ok.inj hok]
              simpa [hasNewLineNode, isNewLineNode] using hl
            | err e2 => simp [fusion, hfus, Res.map] at hok
            | panic => simp [fusion, hfus, Res.map] at hok
            | fuelOut => simp [fusion, hfus, Res.map] at hok
          | str a b ch =>
            cases hfus : fusion fuel rest2 code table with
            | ok l =>
              simp only [fusion, hfus, Res.map] at hok
              have hl := ih rest2 code table l hn2 ht hfus
              rw [← Res.ok.inj hok]
              simpa [hasNewLineNode, isNewLineNode] using hl
            | err e => simp [fusion, hfus, Res.map] at hok
            | panic => simp [fusion, hfus, Res.map] at hok
            | fuelOut => simp [fusion, hfus, Res.map] at hok
          | pipe a b =>
            cases hfus : fusion fuel rest2 code table with
            | ok l =>
              simp only [fusion, hfus, Res.map] at hok
              have hl := ih rest2 code table l hn2 ht hfus
              rw [← Res.ok.inj hok]
              simpa [hasNewLineNode, isNewLineNode] using hl
            | err e => simp [fusion, hfus, Res.map] at hok
            | panic => simp [fusion, hfus, Res.map] at hok
            | fuelOut => simp [fusion, hfus, Res.map] at hok
          | mcrDef a b =>
            cases hfus : fusion fuel rest2 code table with
            | ok l =>
              simp only [fusion, hfus, Res.map] at hok
              have hl := ih rest2 code table l hn2 ht hfus
              rw [← Res.ok.inj hok]
              simpa [hasNewLineNode, isNewLineNode] using hl
            | err e => simp [fusion, hfus, Res.map] at hok
            | panic => simp [fusion, hfus, Res.map] at hok
            | fuelOut => simp [fusion, hfus, Res.map] at hok
          | mcrExp a b =>
            cases hfus : fusion fuel rest2 code table with
            | ok l =>
              simp only [fusion, hfus, Res.map] at hok
              have hl := ih rest2 code table l hn2 ht hfus
              rw [← Res.ok.inj hok]
              simpa [hasNewLineNode, isNewLineNode] using hl
            | err e => simp [fusion, hfus, Res.map] at hok
            | panic => simp [fusion, hfus, Res.map] at hok
            | fuelOut => simp [fusion, hfus, Res.map] at hok
      | lit fc ec =>
        cases hfus : fusion fuel rest code table with
        | ok l =>
          simp only [fusion, hfus, Res.map] at hok
          have hl := ih rest code table l (noNameNL_tail _ _ hn) ht hfus
          rw [← Res.ok.inj hok]
          simpa [hasNewLineNode, isNewLineNode] using hl
        | err e => simp [fusion, hfus, Res.map] at hok
        | panic => simp [fusion, hfus, Res.map] at hok
        | fuelOut => simp [fusion, hfus, Res.map] at hok
      | int fc ec v =>
        cases hfus : fusion fuel rest code table with
        | ok l =>
          simp only [fusion, hfus, Res.map] at hok
          have hl := ih rest code table l (noNameNL_tail _ _ hn) ht hfus
          rw [← Res.ok.inj hok]
          simpa [hasNewLineNode, isNewLineNode] using hl
        | err e => simp [fusion, hfus, Res.map] at hok
        | panic => simp [fusion, hfus, Res.map] at hok
        | fuelOut => simp [fusion, hfus, Res.map] at hok
      | range fc ec s e =>
        cases hfus : fusion fuel rest code table with
        | ok l =>
          simp only [fusion, hfus, Res.map] at hok
          have hl := ih rest code table l (noNameNL_tail _ _ hn) ht hfus
          rw [← Res.ok.inj hok]
          simpa [hasNewLineNode, isNewLineNode] using hl
        | err e2 => simp [fusion, hfus, Res.map] at hok
        | panic => simp [fusion, hfus, Res.map] at hok
        | fuelOut => simp [fusion, hfus, Res.map] at hok
      | array fc ec nmx s e =>
        cases hfus : fusion fuel rest code table with
        | ok l =>
          simp only [fusion, hfus, Res.map] at hok
          have hl := ih rest code table l (noNameNL_tail _ _ hn) ht hfus
          rw [← Res.ok.inj hok]
          simpa [hasNewLineNode, isNewLineNode] using hl
        | err e2 => simp [fusion, hfus, Res.map] at hok
        | panic => simp [fusion, hfus, Res.map] at hok
        | fuelOut => simp [fusion, hfus, Res.map] at hok
      | str fc ec ch =>
        cases hfus : fusion fuel rest code table with
        | ok l =>
          simp only [fusion, hfus, Res.map] at hok
          have hl := ih rest code table l (noNameNL_tail _ _ hn) ht hfus
          rw [← Res.ok.inj hok]
          simpa [hasNewLineNode, isNewLineNode] using hl
        | err e => simp [fusion, hfus, Res.map] at hok
        | panic => simp [fusion, hfus, Res.map] at hok
        | fuelOut => simp [fusion, hfus, Res.map] at hok
      | pipe fc ec =>
        cases hfus : fusion fuel rest code table with
        | ok l =>
          simp only [fusion, hfus, Res.map] at hok
          have hl := ih rest code table l (noNameNL_tail _ _ hn) ht hfus
          rw [← Res.ok.inj hok]
          simpa [hasNewLineNode, isNewLineNode] using hl
        | err e => simp [fusion, hfus, Res.map] at hok
        | panic => simp [fusion, hfus, Res.map] at hok
        | fuelOut => simp [fusion, hfus, Res.map] at hok

/-- Witness for the amended C9 at a concrete input: fusing
`[Literal, NewLine, Int]` (a newline after a literal) drops the newline. -/
theorem C9_newline_dropped_unless_after_name_witness :
    noNameNL [Node.lit 0 1, Node.newLine 1 2, Node.int 2 3 7] = true ∧
    fusion 4 [Node.lit 0 1, Node.newLine 1 2, Node.int 2 3 7] [] [] =
      .ok [Node.lit 0 1, Node.int 2 3 7] ∧
    hasNewLineNode [Node.lit 0 1, Node.int 2 3 7] = false :=
  ⟨rfl, rfl,
   C9_newline_dropped_unless_after_name 4 [Node.lit 0 1, Node.newLine 1 2, Node.int 2 3 7]
     [] [] [Node.lit 0 1, Node.int 2 3 7] rfl rfl rfl⟩

/-- The clamped bound computed by `Op::CmpCounterLessJmp` for array
`nm` with optional user bound `e` (`vm.rs:135-138`). -/
def cmpBound (A : ArrayVars) (nm : Str) (e : Option Nat) : Nat :=
  match e with
  | some b => min b ((lookupArr A nm).getD []).length
  | none => ((lookupArr A nm).getD []).length

/-- The claim's iteration-count formula
`max(0, min(end-or-n, n) - (start-or-0))` (truncated `Nat` subtraction
is exactly the `max(0, ·)`). -/
def loopIterCount (A : ArrayVars) (nm : Str) (s e : Option Nat) : Nat :=
  cmpBound A nm e - s.getD 0

/-- The bound agrees with the claim's `min(end-or-n, n)` spelling. -/
theorem cmpBound_eq (A : ArrayVars) (nm : Str) (e : Option Nat) :
    cmpBound A nm e = min (e.getD ((lookupArr A nm).getD []).length)
      ((lookupArr A nm).getD []).length := by
  cases e with
  | none => simp [cmpBound]
  | some b => simp [cmpBound]

/-- Program counters visited by `k` executions of the canonical loop's
body (`loopOps` indices 2 through 11). -/
def iterTrace : Nat → List Nat
  | 0 => []
  | m + 1 => [2, 3, 4, 5, 6, 7, 8, 9, 10, 11] ++ iterTrace m

/-- Each body block contains exactly one `LoadArrayItem` execution. -/
theorem countLoads_iterTrace (nm : Str) (s e : Option Nat) :
    ∀ k : Nat, countLoads (loopOps nm s e) (0 :: 1 :: iterTrace k) = k := by
  have h0 : isLoadPc (loopOps nm s e) 0 = false := rfl
  have h1 : isLoadPc (loopOps nm s e) 1 = false := rfl
  have h2 : isLoadPc (loopOps nm s e) 2 = true := rfl
  have h3 : isLoadPc (loopOps nm s e) 3 = false := rfl
  have h4 : isLoadPc (loopOps nm s e) 4 = false := rfl
  have h5 : isLoadPc (loopOps nm s e) 5 = false := rfl
  have h6 : isLoadPc (loopOps nm s e) 6 = false := rfl
  have h7 : isLoadPc (loopOps nm s e) 7 = false := rfl
  have h8 : isLoadPc (loopOps nm s e) 8 = false := rfl
  have h9 : isLoadPc (loopOps nm s e) 9 = false := rfl
  have h10 : isLoadPc (loopOps nm s e) 10 = false := rfl
  have h11 : isLoadPc (loopOps nm s e) 11 = false := rfl
  intro k
  induction k with
  | zero => rfl
  | succ k ih =>
    have ih' := ih
    simp [countLoads, iterTrace, List.countP_cons, List.countP_append,
      h0, h1, h2, h3, h4, h5, h6, h7, h8, h9, h10, h11] at ih' ⊢
    omega

/-- One pass through the canonical loop body (pcs 2-10): load the
current item, bind `_item_` and `_index_`, build and flush the body
text, clear the scope and increment the counter, arriving at the
closing jump (pc 11). -/
theorem c2_block (nm : Str) (s e : Option Nat) (V : StringVars) (A : ArrayVars)
    (c : Nat) (sc : StringVars) (O : List Str) (f : Nat) (item : Str)
    (hitem : ((lookupArr A nm).getD [])[c]? = some item) :
    runT (f + 9) (loopOps nm s e)
      { counter := c, pc := 2, stack := [], vars := V, scope := sc, arrays := A, out := O } =
      ((runT f (loopOps nm s e)
          { counter := c + 1, pc := 11, stack := [], vars := V, scope := [], arrays := A,
            out := O ++ [['x']] }).1,
        2 :: 3 :: 4 :: 5 :: 6 :: 7 :: 8 :: 9 :: 10 ::
          (runT f (loopOps nm s e)
            { counter := c + 1, pc := 11, stack := [], vars := V, scope := [], arrays := A,
              out := O ++ [['x']] }).2) := by
  have g2 : (loopOps nm s e)[(2 : Nat)]? = some (Op.loadArrayItem nm) := rfl
  have g3 : (loopOps nm s e)[(3 : Nat)]? = some (Op.putScopeVar nmItem) := rfl
  have g4 : (loopOps nm s e)[(4 : Nat)]? = some Op.loadCounter := rfl
  have g5 : (loopOps nm s e)[(5 : Nat)]? = some (Op.putScopeVar nmIndex) := rfl
  have g6 : (loopOps nm s e)[(6 : Nat)]? = some (Op.putStr ['x']) := rfl
  have g7 : (loopOps nm s e)[(7 : Nat)]? = some Op.collapse := rfl
  have g8 : (loopOps nm s e)[(8 : Nat)]? = some Op.flush := rfl
  have g9 : (loopOps nm s e)[(9 : Nat)]? = some Op.destroyScope := rfl
  have g10 : (loopOps nm s e)[(10 : Nat)]? = some Op.incCounter := rfl
  have p2 : step (loopOps nm s e)
      { counter := c, pc := 2, stack := [], vars := V, scope := sc, arrays := A, out := O } =
      .ok { counter := c, pc := 3, stack := [item], vars := V, scope := sc, arrays := A, out := O } := by
    simp [step, g2, getArrayVar, hitem, stepAdv]
  have p3 : step (loopOps nm s e)
      { counter := c, pc := 3, stack := [item], vars := V, scope := sc, arrays := A, out := O } =
      .ok { counter := c, pc := 4, stack := [], vars := V, scope := (nmItem, item) :: sc,
            arrays := A, out := O } := by
    simp [step, g3, stepAdv]
  have p4 : step (loopOps nm s e)
      { counter := c, pc := 4, stack := [], vars := V, scope := (nmItem, item) :: sc,
        arrays := A, out := O } =
      .ok { counter := c, pc := 5, stack := [(toString c).data], vars := V,
            scope := (nmItem, item) :: sc, arrays := A, out := O } := by
    simp [step, g4, stepAdv]
  have p5 : step (loopOps nm s e)
      { counter := c, pc := 5, stack := [(toString c).data], vars := V,
        scope := (nmItem, item) :: sc, arrays := A, out := O } =
      .ok { counter := c, pc := 6, stack := [], vars := V,
            scope := (nmIndex, (toString c).data) :: (nmItem, item) :: sc, arrays := A,
            out := O } := by
    simp [step, g5, stepAdv]
  have p6 : step (loopOps nm s e)
      { counter := c, pc := 6, stack := [], vars := V,
        scope := (nmIndex, (toString c).data) :: (nmItem, item) :: sc, arrays := A, out := O } =
      .ok { counter := c, pc := 7, stack := [['x']], vars := V,
            scope := (nmIndex, (toString c).data) :: (nmItem, item) :: sc, arrays := A,
            out := O } := by
    simp [step, g6, stepAdv]
  have p7 : step (loopOps nm s e)
      { counter := c, pc := 7, stack := [['x']], vars := V,
        scope := (nmIndex, (toString c).data) :: (nmItem, item) :: sc, arrays := A, out := O } =
      .ok { counter := c, pc := 8, stack := [['x']], vars := V,
            scope := (nmIndex, (toString c).data) :: (nmItem, item) :: sc, arrays := A,
            out := O } := by
    simp [step, g7, stepAdv]
  have p8 : step (loopOps nm s e)
      { counter := c, pc := 8, stack := [['x']], vars := V,
        scope := (nmIndex, (toString c).data) :: (nmItem, item) :: sc, arrays := A, out := O } =
      .ok { counter := c, pc := 9, stack := [], vars := V,
            scope := (nmIndex, (toString c).data) :: (nmItem, item) :: sc, arrays := A,
            out := O ++ [['x']] } := by
    simp [step, g8, stepAdv]
  have p9 : step (loopOps nm s e)
      { counter := c, pc := 9, stack := [], vars := V,
        scope := (nmIndex, (toString c).data) :: (nmItem, item) :: sc, arrays := A,
        out := O ++ [['x']] } =
      .ok { counter := c, pc := 10, stack := [], vars := V, scope := [], arrays := A,
            out := O ++ [['x']] } := by
    simp [step, g9, stepAdv]
  have p10 : step (loopOps nm s e)
      { counter := c, pc := 10, stack := [], vars := V, scope := [], arrays := A,
        out := O ++ [['x']] } =
      .ok { counter := c + 1, pc := 11, stack := [], vars := V, scope := [], arrays := A,
            out := O ++ [['x']] } := by
    simp [step, g10, stepAdv]
  rw [show f + 9 = (f + 8) + 1 from rfl, runT_peel (f + 8) p2,
    show f + 8 = (f + 7) + 1 from rfl, runT_peel (f + 7) p3,
    show f + 7 = (f + 6) + 1 from rfl, runT_peel (f + 6) p4,
    show f + 6 = (f + 5) + 1 from rfl, runT_peel (f + 5) p5,
    show f + 5 = (f + 4) + 1 from rfl, runT_peel (f + 4) p6,
    show f + 4 = (f + 3) + 1 from rfl, runT_peel (f + 3) p7,
    show f + 3 = (f + 2) + 1 from rfl, runT_peel (f + 2) p8,
    show f + 2 = (f + 1) + 1 from rfl, runT_peel (f + 1) p9,
    runT_peel f p10]

/-- Running the canonical loop from its body entry (pc 2) with
`m + 1` iterations left performs exactly those iterations: each appends
one body text to the output and visits pcs 2-11, and the final
`CmpCounterLessJmp` falls through to normal termination. -/
theorem c2_iter (nm : Str) (s e : Option Nat) (V : StringVars) (A : ArrayVars) :
    ∀ (m c : Nat) (sc : StringVars) (O : List Str),
      c + (m + 1) = cmpBound A nm e →
      runT (10 * (m + 1) + 1) (loopOps nm s e)
        { counter := c, pc := 2, stack := [], vars := V, scope := sc, arrays := A, out := O } =
        (.ok { counter := cmpBound A nm e, pc := 12, stack := [], vars := V, scope := [],
               arrays := A, out := O ++ List.replicate (m + 1) ['x'] },
         iterTrace (m + 1)) := by
  have hble : cmpBound A nm e ≤ ((lookupArr A nm).getD []).length := by
    rw [cmpBound_eq]; exact min_le_right _ _
  have g11 : (loopOps nm s e)[(11 : Nat)]? = some (Op.cmpCounterLessJmp 1 e nm) := rfl
  have g12 : (loopOps nm s e)[(12 : Nat)]? = (none : Option Op) := rfl
  intro m
  induction m with
  | zero =>
    intro c sc O hc
    have hlt : c < ((lookupArr A nm).getD []).length := by omega
    obtain ⟨item, hitem⟩ : ∃ item, ((lookupArr A nm).getD [])[c]? = some item :=
      ⟨_, List.getElem?_eq_getElem hlt⟩
    rw [show 10 * (0 + 1) + 1 = (2 : Nat) + 9 from by norm_num]
    rw [c2_block nm s e V A c sc O 2 item hitem]
    have p11 : step (loopOps nm s e)
        { counter := c + 1, pc := 11, stack := [], vars := V, scope := [], arrays := A,
          out := O ++ [['x']] } =
        .ok { counter := c + 1, pc := 12, stack := [], vars := V, scope := [], arrays := A,
              out := O ++ [['x']] } := by
      have hnb : ¬ (c + 1 < cmpBound A nm e) := by omega
      cases e with
      | none =>
        have hnb2 : ¬ (c + 1 < ((lookupArr A nm).getD []).length) := hnb
        simp [step, g11, stepAdv, getArrayVar, hnb2]
      | some b =>
        have hnb2 : ¬ (c + 1 < min b ((lookupArr A nm).getD []).length) := hnb
        simp [step, g11, stepAdv, getArrayVar, hnb2]
    have p12 : step (loopOps nm s e)
        { counter := c + 1, pc := 12, stack := [], vars := V, scope := [], arrays := A,
          out := O ++ [['x']] } = .err .endOfProgram := by
      simp [step, g12]
    rw [show (2 : Nat) = 1 + 1 from rfl, runT_peel 1 p11,
      show (1 : Nat) = 0 + 1 from rfl, runT_end 0 p12]
    rw [← hc]
    simp [iterTrace]
  | succ m ih =>
    intro c sc O hc
    have hlt : c < ((lookupArr A nm).getD []).length := by omega
    obtain ⟨item, hitem⟩ : ∃ item, ((lookupArr A nm).getD [])[c]? = some item :=
      ⟨_, List.getElem?_eq_getElem hlt⟩
    rw [show 10 * (m + 1 + 1) + 1 = ((10 * (m + 1) + 1) + 1) + 9 from by ring]
    rw [c2_block nm s e V A c sc O ((10 * (m + 1) + 1) + 1) item hitem]
    have p11 : step (loopOps nm s e)
        { counter := c + 1, pc := 11, stack := [], vars := V, scope := [], arrays := A,
          out := O ++ [['x']] } =
        .ok { counter := c + 1, pc := 2, stack := [], vars := V, scope := [], arrays := A,
              out := O ++ [['x']] } := by
      have hb : c + 1 < cmpBound A nm e := by omega
      cases e with
      | none =>
        have hb2 : c + 1 < ((lookupArr A nm).getD []).length := hb
        simp [step, g11, stepAdv, getArrayVar, hb2]
      | some b =>
        have hb2 : c + 1 < min b ((lookupArr A nm).getD []).length := hb
        simp [step, g11, stepAdv, getArrayVar, hb2]
    rw [runT_peel (10 * (m + 1) + 1) p11]
    rw [ih (c + 1) [] (O ++ [['x']]) (by omega)]
    simp [iterTrace, List.replicate_succ]

/-- C2 amended.  For every array loop whose body template is a plain
literal, the VM executes the body exactly
`max(0, min(end-or-n, n) - (start-or-0))` times (`loopIterCount`, with
truncated subtraction as the `max`): the generated program runs to
normal completion, the sink receives one body text per iteration, and
the trace contains exactly that many `LoadArrayItem` executions.  (The
restriction to literal bodies is forced by `C2_counterexample`: a body
that interpolates `_item_` can abort the run mid-loop through the
byte/grapheme slicing panic of `vm.rs:113-116`.) -/
theorem C2_loop_iteration_count :
    ∀ (nm : Str) (s e : Option Nat) (V : StringVars) (A : ArrayVars),
      isNameArray nm = true →
      genIr ['x'] (loopAst nm s e) = .ok (loopOps nm s e) ∧
      (∃ fin : VmState,
        runT (10 * loopIterCount A nm s e + 3) (loopOps nm s e) (vmNew V A) =
          (.ok fin, 0 :: 1 :: iterTrace (loopIterCount A nm s e)) ∧
        fin.out = List.replicate (loopIterCount A nm s e) ['x']) ∧
      countLoads (loopOps nm s e) (0 :: 1 :: iterTrace (loopIterCount A nm s e)) =
        loopIterCount A nm s e := by
  intro nm s e V A hup
  refine ⟨genIr_loopAst nm s e hup, ?_, countLoads_iterTrace nm s e _⟩
  have p0 : step (loopOps nm s e) (vmNew V A) =
      .ok { counter := s.getD 0, pc := 1, stack := [], vars := V, scope := [], arrays := A,
            out := [] } := by
    simp [step, loopOps, vmNew, stepAdv]
  rcases Nat.eq_zero_or_pos (loopIterCount A nm s e) with hk | hk
  · -- zero iterations: the empty-array jump is taken
    have hcb : cmpBound A nm e ≤ s.getD 0 := by
      have : loopIterCount A nm s e = 0 := hk
      simp [loopIterCount] at this
      omega
    have p1 : step (loopOps nm s e)
        { counter := s.getD 0, pc := 1, stack := [], vars := V, scope := [], arrays := A,
          out := [] } =
        .ok { counter := s.getD 0, pc := 12, stack := [], vars := V, scope := [], arrays := A,
              out := [] } := by
      have hcond : s.getD 0 ≥ min (((lookupArr A nm).getD []).length)
          (e.getD (((lookupArr A nm).getD []).length)) ∨
          min (((lookupArr A nm).getD []).length)
            (e.getD (((lookupArr A nm).getD []).length)) = 0 := by
        left
        have hbe := cmpBound_eq A nm e
        omega
      show (if s.getD 0 ≥ min (((lookupArr A nm).getD []).length)
          (e.getD (((lookupArr A nm).getD []).length)) ∨
          min (((lookupArr A nm).getD []).length)
            (e.getD (((lookupArr A nm).getD []).length)) = 0 then
          stepAdv { counter := s.getD 0, pc := 11, stack := [], vars := V, scope := [], arrays := A, out := [] }
        else
          stepAdv { counter := s.getD 0, pc := 1, stack := [], vars := V, scope := [], arrays := A, out := [] }) = _
      rw [if_pos hcond]
      rfl
    have p2 : step (loopOps nm s e)
        { counter := s.getD 0, pc := 12, stack := [], vars := V, scope := [], arrays := A,
          out := [] } = .err .endOfProgram := by
      have g12 : (loopOps nm s e)[(12 : Nat)]? = (none : Option Op) := rfl
      simp [step, g12]
    refine ⟨{ counter := s.getD 0, pc := 12, stack := [], vars := V, scope := [], arrays := A,
              out := [] }, ?_, by simp [hk]⟩
    rw [hk]
    rw [show 10 * 0 + 3 = (2 : Nat) + 1 from by norm_num, runT_peel 2 p0,
      show (2 : Nat) = 1 + 1 from rfl, runT_peel 1 p1,
      show (1 : Nat) = 0 + 1 from rfl, runT_end 0 p2]
    simp [vmNew, iterTrace]
  · -- at least one iteration: fall through into the body
    obtain ⟨m, hm⟩ := Nat.exists_eq_succ_of_ne_zero (Nat.pos_iff_ne_zero.mp hk)
    have hkm : cmpBound A nm e - s.getD 0 = m + 1 := by
      have h2 : loopIterCount A nm s e = m + 1 := hm
      simpa [loopIterCount] using h2
    have hcb : s.getD 0 < cmpBound A nm e := by omega
    have p1 : step (loopOps nm s e)
        { counter := s.getD 0, pc := 1, stack := [], vars := V, scope := [], arrays := A,
          out := [] } =
        .ok { counter := s.getD 0, pc := 2, stack := [], vars := V, scope := [], arrays := A,
              out := [] } := by
      have hcond : ¬ (s.getD 0 ≥ min (((lookupArr A nm).getD []).length)
          (e.getD (((lookupArr A nm).getD []).length)) ∨
          min (((lookupArr A nm).getD []).length)
            (e.getD (((lookupArr A nm).getD []).length)) = 0) := by
        have hbe := cmpBound_eq A nm e
        omega
      show (if s.getD 0 ≥ min (((lookupArr A nm).getD []).length)
          (e.getD (((lookupArr A nm).getD []).length)) ∨
          min (((lookupArr A nm).getD []).length)
            (e.getD (((lookupArr A nm).getD []).length)) = 0 then
          stepAdv { counter := s.getD 0, pc := 11, stack := [], vars := V, scope := [], arrays := A, out := [] }
        else
          stepAdv { counter := s.getD 0, pc := 1, stack := [], vars := V, scope := [], arrays := A, out := [] }) = _
      rw [if_neg hcond]
      rfl
    refine ⟨{ counter := cmpBound A nm e, pc := 12, stack := [], vars := V, scope := [],
              arrays := A, out := [] ++ List.replicate (m + 1) ['x'] }, ?_, by simp [hm]⟩
    rw [hm]
    rw [show 10 * (m + 1) + 3 = (((10 * (m + 1) + 1) + 1) + 1) from by ring,
      runT_peel ((10 * (m + 1) + 1) + 1) p0, runT_peel (10 * (m + 1) + 1) p1]
    rw [c2_iter nm s e V A m (s.getD 0) [] [] (by omega)]
    simp [vmNew]

/-- The three-node parse of `{{ NAME[s:e] | "$(_item_)" }}`'s directive
part: the body template interpolates the reserved loop variable
`_item_` (the name child's span `[0,6)` points at the source
`"_item_"`). -/
def loopAstItem (nm : Str) (s e : Option Nat) : List Node :=
  [Node.array 0 0 nm s e, Node.pipe 0 0, Node.str 0 6 [Node.name 0 6]]

/-- The instruction list `gen_ir` emits for `loopAstItem`. -/
def loopOpsItem (nm : Str) (s e : Option Nat) : List Op :=
  [Op.setCounter (s.getD 0),
   Op.cmpArrayEmptyJmp 11 s e nm,
   Op.loadArrayItem nm,
   Op.putScopeVar nmItem,
   Op.loadCounter,
   Op.putScopeVar nmIndex,
   Op.putName none none nmItem,
   Op.collapse,
   Op.flush,
   Op.destroyScope,
   Op.incCounter,
   Op.cmpCounterLessJmp 1 e nm]

/-- C2 counterexample.  The claim as stated quantifies over every array
loop and every external array.  Take the loop `ARR[0:100] | "$(_item_)"`
over the 3-element array `["éé", "b", "c"]`: the formula says 3
iterations, but the very first body iteration fetches `_item_` = `éé`
and hits the byte/grapheme slicing panic of `vm.rs:113-116`, so the run
aborts after a single `LoadArrayItem` execution (trace `[0..5]`, one
load, no output) instead of performing 3 iterations. -/
theorem C2_counterexample :
    genIr nmItem (loopAstItem ['A', 'R', 'R'] (some 0) (some 100)) =
      .ok (loopOpsItem ['A', 'R', 'R'] (some 0) (some 100)) ∧
    loopIterCount [(['A', 'R', 'R'], [eAcc, ['b'], ['c']])] ['A', 'R', 'R']
      (some 0) (some 100) = 3 ∧
    runT 50 (loopOpsItem ['A', 'R', 'R'] (some 0) (some 100))
      (vmNew [] [(['A', 'R', 'R'], [eAcc, ['b'], ['c']])]) =
      (.panic, [0, 1, 2, 3, 4, 5]) ∧
    countLoads (loopOpsItem ['A', 'R', 'R'] (some 0) (some 100)) [0, 1, 2, 3, 4, 5] = 1 := by
  exact ⟨rfl, rfl, rfl, rfl⟩

/-- Witness for the amended C2 at the claim's own concrete instances: a
3-element array iterated with bounds `[0:100]` (3 iterations, three
body texts written) and `[5:10]` (0 iterations, nothing written). -/
theorem C2_loop_iteration_count_witness :
    isNameArray ['A', 'R', 'R'] = true ∧
    loopIterCount [(['A', 'R', 'R'], [['a'], ['b'], ['c']])] ['A', 'R', 'R']
      (some 0) (some 100) = 3 ∧
    loopIterCount [(['A', 'R', 'R'], [['a'], ['b'], ['c']])] ['A', 'R', 'R']
      (some 5) (some 10) = 0 ∧
    (∃ fin : VmState,
      runT (10 * loopIterCount [(['A', 'R', 'R'], [['a'], ['b'], ['c']])] ['A', 'R', 'R']
          (some 0) (some 100) + 3)
        (loopOps ['A', 'R', 'R'] (some 0) (some 100))
        (vmNew [] [(['A', 'R', 'R'], [['a'], ['b'], ['c']])]) =
        (.ok fin, 0 :: 1 :: iterTrace (loopIterCount
          [(['A', 'R', 'R'], [['a'], ['b'], ['c']])] ['A', 'R', 'R'] (some 0) (some 100))) ∧
      fin.out = List.replicate (loopIterCount [(['A', 'R', 'R'], [['a'], ['b'], ['c']])]
        ['A', 'R', 'R'] (some 0) (some 100)) ['x']) ∧
    (∃ fin : VmState,
      runT (10 * loopIterCount [(['A', 'R', 'R'], [['a'], ['b'], ['c']])] ['A', 'R', 'R']
          (some 5) (some 10) + 3)
        (loopOps ['A', 'R', 'R'] (some 5) (some 10))
        (vmNew [] [(['A', 'R', 'R'], [['a'], ['b'], ['c']])]) =
        (.ok fin, 0 :: 1 :: iterTrace (loopIterCount
          [(['A', 'R', 'R'], [['a'], ['b'], ['c']])] ['A', 'R', 'R'] (some 5) (some 10))) ∧
      fin.out = List.replicate (loopIterCount [(['A', 'R', 'R'], [['a'], ['b'], ['c']])]
        ['A', 'R', 'R'] (some 5) (some 10)) ['x']) :=
  ⟨rfl, rfl, rfl,
   (C2_loop_iteration_count ['A', 'R', 'R'] (some 0) (some 100) []
     [(['A', 'R', 'R'], [['a'], ['b'], ['c']])] rfl).2.1,
   (C2_loop_iteration_count ['A', 'R', 'R'] (some 5) (some 10) []
     [(['A', 'R', 'R'], [['a'], ['b'], ['c']])] rfl).2.1⟩

/-- The jump the instruction at the current pc would perform: `some t`
when it is a conditional jump whose condition holds in `st`, otherwise
`none` (mirrors the two `Cmp*Jmp` branches of `Vm::step`). -/
def jumpTarget (prog : List Op) (st : VmState) : Option Nat :=
  match prog.get? st.pc with
  | some (.cmpCounterLessJmp t v nm) =>
    if st.counter <
        (match v with
         | some b => min b (getArrayVar st nm).length
         | none => (getArrayVar st nm).length) then some t else none
  | some (.cmpArrayEmptyJmp t s e nm) =>
    if s.getD 0 ≥ min (getArrayVar st nm).length (e.getD (getArrayVar st nm).length) ∨
        min (getArrayVar st nm).length (e.getD (getArrayVar st nm).length) = 0 then
      some t
    else none
  | _ => none

/-- After every successfully executed instruction the pc is the
pre-increment pc (the jump target if a jump fired, the old pc
otherwise) plus exactly one. -/
theorem step_pc_advance (prog : List Op) (st st' : VmState)
    (h : step prog st = .ok st') :
    st'.pc = (jumpTarget prog st).getD st.pc + 1 := by
  cases hop : prog.get? st.pc with
  | none =>
    rw [List.get?_eq_getElem?] at hop
    simp [step, hop] at h
  | some op =>
    have hop' := hop
    rw [List.get?_eq_getElem?] at hop'
    cases op with
    | putStr v =>
      simp [step, hop', stepAdv] at h
      simp [jumpTarget, hop', ← h]
    | flush =>
      simp [step, hop', stepAdv] at h
      simp [jumpTarget, hop', ← h]
    | collapse =>
      simp [step, hop', stepAdv] at h
      simp [jumpTarget, hop', ← h]
    | putName s e nm =>
      cases hv : getStringVar st nm with
      | none => simp [step, hop', hv] at h
      | some var =>
        cases hs : sliceN (graphemes var) (s.getD 0)
            (min (byteLen var) (e.getD (byteLen var)) - s.getD 0) with
        | none => simp [step, hop', hv, hs] at h
        | some r =>
          simp [step, hop', hv, hs, stepAdv] at h
          simp [jumpTarget, hop', ← h]
    | setCounter v =>
      simp [step, hop', stepAdv] at h
      simp [jumpTarget, hop', ← h]
    | incCounter =>
      simp [step, hop', stepAdv] at h
      simp [jumpTarget, hop', ← h]
    | loadCounter =>
      simp [step, hop', stepAdv] at h
      simp [jumpTarget, hop', ← h]
    | cmpCounterLessJmp t v nm =>
      cases v with
      | none =>
        have hstep : step prog st =
            if st.counter < (getArrayVar st nm).length then
              .ok { st with pc := t + 1 }
            else .ok { st with pc := st.pc + 1 } := by
          unfold step
          simp only [hop]
          try rfl
        have hjt : jumpTarget prog st =
            if st.counter < (getArrayVar st nm).length then some t else none := by
          unfold jumpTarget
          simp only [hop]
          try rfl
        by_cases hc : st.counter < (getArrayVar st nm).length
        · rw [if_pos hc] at hstep
          rw [hstep] at h
          rw [hjt, if_pos hc, ← StepRes.ok.inj h]
          try rfl
        · rw [if_neg hc] at hstep
          rw [hstep] at h
          rw [hjt, if_neg hc, ← StepRes.ok.inj h]
          try rfl
      | some b =>
        have hstep : step prog st =
            if st.counter < min b (getArrayVar st nm).length then
              .ok { st with pc := t + 1 }
            else .ok { st with pc := st.pc + 1 } := by
          unfold step
          simp only [hop]
          try rfl
        have hjt : jumpTarget prog st =
            if st.counter < min b (getArrayVar st nm).length then some t else none := by
          unfold jumpTarget
          simp only [hop]
          try rfl
        by_cases hc : st.counter < min b (getArrayVar st nm).length
        · rw [if_pos hc] at hstep
          rw [hstep] at h
          rw [hjt, if_pos hc, ← StepRes.ok.inj h]
          try rfl
        · rw [if_neg hc] at hstep
          rw [hstep] at h
          rw [hjt, if_neg hc, ← StepRes.ok.inj h]
          try rfl
    | cmpArrayEmptyJmp t s e nm =>
      have hstep : step prog st =
          if s.getD 0 ≥ min (getArrayVar st nm).length
              (e.getD (getArrayVar st nm).length) ∨
              min (getArrayVar st nm).length (e.getD (getArrayVar st nm).length) = 0 then
            .ok { st with pc := t + 1 }
          else .ok { st with pc := st.pc + 1 } := by
        unfold step
        simp only [hop]
        try rfl
      have hjt : jumpTarget prog st =
          if s.getD 0 ≥ min (getArrayVar st nm).length
              (e.getD (getArrayVar st nm).length) ∨
              min (getArrayVar st nm).length (e.getD (getArrayVar st nm).length) = 0 then
            some t
          else none := by
        unfold jumpTarget
        simp only [hop]
        try rfl
      by_cases hc : s.getD 0 ≥ min (getArrayVar st nm).length
          (e.getD (getArrayVar st nm).length) ∨
          min (getArrayVar st nm).length (e.getD (getArrayVar st nm).length) = 0
      · rw [if_pos hc] at hstep
        rw [hstep] at h
        rw [hjt, if_pos hc, ← StepRes.ok.inj h]
        try rfl
      · rw [if_neg hc] at hstep
        rw [hstep] at h
        rw [hjt, if_neg hc, ← StepRes.ok.inj h]
        try rfl
    | loadArrayItem nm =>
      cases hi : (getArrayVar st nm).get? st.counter with
      | none =>
        rw [List.get?_eq_getElem?] at hi
        simp [step, hop', hi] at h
      | some item =>
        rw [List.get?_eq_getElem?] at hi
        simp [step, hop', hi, stepAdv] at h
        simp [jumpTarget, hop', ← h]
    | putScopeVar nm =>
      cases hl : st.stack.getLast? with
      | none => simp [step, hop', hl] at h
      | some v =>
        simp [step, hop', hl, stepAdv] at h
        simp [jumpTarget, hop', ← h]
    | destroyScope =>
      simp [step, hop', stepAdv] at h
      simp [jumpTarget, hop', ← h]

/-- Is an instruction one of the two conditional jumps? -/
def isJumpOp : Op → Bool
  | .cmpCounterLessJmp _ _ _ => true
  | .cmpArrayEmptyJmp _ _ _ _ => true
  | _ => false

/-- A `CmpArrayEmptyJmp` at index `p` with target `t` is well encoded:
the target holds the loop's closing `CmpCounterLessJmp` (pointing back
at `p`), so the landing index `t + 1` is one past the loop's closing
jump. -/
def goodA (ops : List Op) (p t : Nat) : Prop :=
  ∃ v nm, ops.get? t = some (Op.cmpCounterLessJmp p v nm)

/-- A `CmpCounterLessJmp` at index `q` with target `t` is well encoded:
the target holds the loop's `CmpArrayEmptyJmp` (pointing forward past
`q`) and `t + 1` — the landing index — holds the loop's first body
instruction, `LoadArrayItem`. -/
def goodC (ops : List Op) (q t : Nat) : Prop :=
  (∃ s e nm, ops.get? t = some (Op.cmpArrayEmptyJmp q s e nm)) ∧
  (∃ nm, ops.get? (t + 1) = some (Op.loadArrayItem nm))

/-- Every jump in the program obeys the off-by-one target convention. -/
def jumpTargetsOk (ops : List Op) : Prop :=
  (∀ p t s e nm, ops.get? p = some (Op.cmpArrayEmptyJmp t s e nm) → goodA ops p t) ∧
  (∀ q t v nm, ops.get? q = some (Op.cmpCounterLessJmp t v nm) → goodC ops q t)

/-- The node suffix consists of zero or more `NewLine` nodes followed by
a `String` node (the shape `expect_string` certifies). -/
def pendingStr (l : List Node) : Prop :=
  ∃ j, (∀ k2, k2 < j → ∃ a b, l.get? k2 = some (Node.newLine a b)) ∧
       (∃ fc ec ch, l.get? j = some (Node.str fc ec ch))

/-- Loop invariant of `gen_ir`: while a loop is pending, its
`CmpArrayEmptyJmp` (still carrying the dummy target 0) sits at `opI`
with the `LoadArrayItem` right after it, the pending node is an array
node, and the unprocessed suffix is newlines-then-string; every other
`CmpArrayEmptyJmp` and every `CmpCounterLessJmp` already satisfies the
target convention; and instruction 0 is never a `CmpCounterLessJmp`. -/
def genInv (astL : List Node) (i : Nat) (ops : List Op)
    (arrayStart : Option (Nat × Nat)) : Prop :=
  (∀ ni opI, arrayStart = some (ni, opI) →
    (∃ s e nm, ops.get? opI = some (Op.cmpArrayEmptyJmp 0 s e nm)) ∧
    (∃ nm, ops.get? (opI + 1) = some (Op.loadArrayItem nm)) ∧
    (∃ fc ec nm s2 e2, astL.get? ni = some (Node.array fc ec nm s2 e2)) ∧
    pendingStr (astL.drop i)) ∧
  (∀ p t s e nm, ops.get? p = some (Op.cmpArrayEmptyJmp t s e nm) →
    (∃ ni, arrayStart = some (ni, p)) ∨ goodA ops p t) ∧
  (∀ q t v nm, ops.get? q = some (Op.cmpCounterLessJmp t v nm) → goodC ops q t) ∧
  (∀ t v nm, ¬ ops.get? 0 = some (Op.cmpCounterLessJmp t v nm))

/-- A `get?` hit is inside the list. -/
theorem get?_some_lt {α : Type} {l : List α} {n : Nat} {a : α}
    (h : l.get? n = some a) : n < l.length := by
  by_contra hn
  push_neg at hn
  rw [List.get?_eq_none.mpr hn] at h
  exact absurd h (by simp)

/-- `get?` hits are stable under appending on the right. -/
theorem get?_append_left' {α : Type} {l1 l2 : List α} {n : Nat} {a : α}
    (h : l1.get? n = some a) : (l1 ++ l2).get? n = some a := by
  rw [List.get?_append (get?_some_lt h)]
  exact h

/-- A `get?` hit in an append comes from the left part (same index) or
is a member of the right part (at an index past the left length). -/
theorem get?_append_or {α : Type} {l1 l2 : List α} {n : Nat} {a : α}
    (h : (l1 ++ l2).get? n = some a) :
    l1.get? n = some a ∨ (a ∈ l2 ∧ l1.length ≤ n) := by
  rcases lt_or_ge n l1.length with hlt | hge
  · left
    rw [← List.get?_append hlt]
    exact h
  · right
    rw [List.get?_append_right hge] at h
    exact ⟨List.get?_mem h, hge⟩

/-- `goodA` is stable under appends. -/
theorem goodA_append {ops l2 : List Op} {p t : Nat} (h : goodA ops p t) :
    goodA (ops ++ l2) p t := by
  obtain ⟨v, nm, hg⟩ := h
  exact ⟨v, nm, get?_append_left' hg⟩

/-- `goodC` is stable under appends. -/
theorem goodC_append {ops l2 : List Op} {q t : Nat} (h : goodC ops q t) :
    goodC (ops ++ l2) q t := by
  obtain ⟨⟨s, e, nm, h1⟩, nm2, h2⟩ := h
  exact ⟨⟨s, e, nm, get?_append_left' h1⟩, nm2, get?_append_left' h2⟩

/-- `gen_ir` string children generate no jump instructions. -/
theorem genChildren_noJump :
    ∀ (children : List Node) (code : Str) (scope : List Str) (l : List Op),
      genChildren children code scope = .ok l → ∀ op ∈ l, isJumpOp op = false := by
  intro children
  induction children with
  | nil =>
    intro code scope l h op hop
    simp [genChildren] at h
    subst h
    simp at hop
  | cons n rest ih =>
    intro code scope l h op hop
    cases n with
    | name fc ec =>
      cases hbs : byteSlice code fc ec with
      | none => simp [genChildren, hbs] at h
      | some nm =>
        by_cases hres : ¬ nm ∈ scope ∧ isNameReserved nm = true
        · simp [genChildren, hbs, hres] at h
        · cases hrec : genChildren rest code scope with
          | ok l2 =>
            simp [genChildren, hbs, hres, hrec, Res.map] at h
            subst h
            rcases List.mem_cons.mp hop with hop | hop
            · rw [hop]; rfl
            · exact ih code scope l2 hrec op hop
          | err e2 => simp [genChildren, hbs, hres, hrec, Res.map] at h
          | panic => simp [genChildren, hbs, hres, hrec, Res.map] at h
          | fuelOut => simp [genChildren, hbs, hres, hrec, Res.map] at h
    | lit fc ec =>
      cases hbs : byteSlice code fc ec with
      | none => simp [genChildren, hbs] at h
      | some sv =>
        cases hrec : genChildren rest code scope with
        | ok l2 =>
          simp [genChildren, hbs, hrec, Res.map] at h
          subst h
          rcases List.mem_cons.mp hop with hop | hop
          · rw [hop]; rfl
          · exact ih code scope l2 hrec op hop
        | err e2 => simp [genChildren, hbs, hrec, Res.map] at h
        | panic => simp [genChildren, hbs, hrec, Res.map] at h
        | fuelOut => simp [genChildren, hbs, hrec, Res.map] at h
    | int a b v => simp [genChildren] at h
    | range a b s2 e2 => simp [genChildren] at h
    | array a b nmx s2 e2 => simp [genChildren] at h
    | str a b ch => simp [genChildren] at h
    | mcrDef a b => simp [genChildren] at h
    | mcrExp a b => simp [genChildren] at h
    | pipe a b => simp [genChildren] at h
    | newLine a b => simp [genChildren] at h

/-- The empty suffix is not newlines-then-string. -/
theorem pendingStr_nil : ¬ pendingStr ([] : List Node) := by
  rintro ⟨j, _, fc, ec, ch, hj⟩
  simp at hj

/-- Decompose `pendingStr` at a cons: the head is the string, or the
head is a newline and the tail is again newlines-then-string. -/
theorem pendingStr_cons {x : Node} {l : List Node} (hx : pendingStr (x :: l)) :
    (∃ fc ec ch, x = Node.str fc ec ch) ∨
    ((∃ a b, x = Node.newLine a b) ∧ pendingStr l) := by
  obtain ⟨j, hnl, fc, ec, ch, hj⟩ := hx
  cases j with
  | zero =>
    left
    simp at hj
    exact ⟨fc, ec, ch, hj⟩
  | succ j =>
    right
    constructor
    · obtain ⟨a, b, hab⟩ := hnl 0 (by omega)
      simp at hab
      exact ⟨a, b, hab⟩
    · refine ⟨j, ?_, fc, ec, ch, by simpa using hj⟩
      intro k2 hk2
      obtain ⟨a, b, hab⟩ := hnl (k2 + 1) (by omega)
      exact ⟨a, b, by simpa using hab⟩

/-- Build `pendingStr` under a leading newline. -/
theorem pendingStr_cons_newline (a b : Nat) {l : List Node} (hl : pendingStr l) :
    pendingStr (Node.newLine a b :: l) := by
  obtain ⟨j, hnl, fc, ec, ch, hj⟩ := hl
  refine ⟨j + 1, ?_, fc, ec, ch, by simpa using hj⟩
  intro k2 hk2
  cases k2 with
  | zero => exact ⟨a, b, by simp⟩
  | succ k2 =>
    obtain ⟨a2, b2, hab⟩ := hnl k2 (by omega)
    exact ⟨a2, b2, by simpa using hab⟩

/-- A successful `expect_string` scan certifies the suffix shape. -/
theorem expectStringGo_ok :
    ∀ (l : List Node) (lastFc : Option Nat), expectStringGo l lastFc = .ok () →
      pendingStr l := by
  intro l
  induction l with
  | nil =>
    intro lastFc h
    cases lastFc <;> simp [expectStringGo] at h
  | cons n rest ih =>
    intro lastFc h
    cases n with
    | str fc ec ch => exact ⟨0, by omega, fc, ec, ch, by simp⟩
    | newLine a b =>
      exact pendingStr_cons_newline a b (ih lastFc (by simpa [expectStringGo] using h))
    | lit fc ec => simp [expectStringGo] at h
    | name fc ec => simp [expectStringGo] at h
    | int fc ec v => simp [expectStringGo] at h
    | range fc ec s e => simp [expectStringGo] at h
    | array fc ec nm s e => simp [expectStringGo] at h
    | pipe fc ec => simp [expectStringGo] at h
    | mcrDef fc ec => simp [expectStringGo] at h
    | mcrExp fc ec => simp [expectStringGo] at h

/-- A successful `expect_string` at index `k` certifies the suffix. -/
theorem expectString_ok {astL : List Node} {k : Nat}
    (h : expectString astL k = .ok ()) : pendingStr (astL.drop k) := by
  unfold expectString at h
  by_cases hk : k ≤ astL.length
  · rw [if_pos hk] at h
    exact expectStringGo_ok _ _ h
  · rw [if_neg hk] at h
    simp at h

/-- Expose the node at index `i` as the head of the dropped suffix. -/
theorem drop_eq_cons_of_get? :
    ∀ {α : Type} (i : Nat) (l : List α) (x : α), l.get? i = some x →
      l.drop i = x :: l.drop (i + 1) := by
  intro α i
  induction i with
  | zero =>
    intro l x h
    cases l with
    | nil => simp at h
    | cons a rest =>
      simp at h
      simp [h]
  | succ i ih =>
    intro l x h
    cases l with
    | nil => simp at h
    | cons a rest =>
      simp only [List.drop_succ_cons]
      exact ih rest x (by simpa using h)

/-- At the end of the node list the invariant rules out a pending loop
and yields the final jump-target property. -/
theorem genInv_exit {astL : List Node} {i : Nat} {ops : List Op}
    {arrSt : Option (Nat × Nat)}
    (hinv : genInv astL i ops arrSt) (hget : astL.get? i = none) :
    jumpTargetsOk ops := by
  obtain ⟨hpend, hP2, hP3, _⟩ := hinv
  have hdrop : astL.drop i = [] := by
    apply List.drop_eq_nil_of_le
    by_contra hlen
    push_neg at hlen
    rw [List.get?_eq_none] at hget
    omega
  constructor
  · intro p t s e nm hp
    rcases hP2 p t s e nm hp with ⟨ni, hsome⟩ | hgood
    · obtain ⟨_, _, _, hps⟩ := hpend ni p hsome
      rw [hdrop] at hps
      exact absurd hps pendingStr_nil
    · exact hgood
  · intro q t v nm hq
    exact hP3 q t v nm hq

/-- Appending non-jump instructions preserves the invariant when no
loop is pending (the target index may move freely). -/
theorem genInv_none_append {astL : List Node} {i : Nat} {ops : List Op}
    (i' : Nat) (new : List Op)
    (hinv : genInv astL i ops none)
    (hnew : ∀ op ∈ new, isJumpOp op = false) :
    genInv astL i' (ops ++ new) none := by
  obtain ⟨_, hP2, hP3, hP4⟩ := hinv
  refine ⟨by simp, ?_, ?_, ?_⟩
  · intro p t s e nm hp
    rcases get?_append_or hp with hin | ⟨hmem, _⟩
    · rcases hP2 p t s e nm hin with ⟨ni, hc⟩ | hgood
      · simp at hc
      · exact Or.inr (goodA_append hgood)
    · have := hnew _ hmem
      simp [isJumpOp] at this
  · intro q t v nm hq
    rcases get?_append_or hq with hin | ⟨hmem, _⟩
    · exact goodC_append (hP3 q t v nm hin)
    · have := hnew _ hmem
      simp [isJumpOp] at this
  · intro t v nm h0
    rcases get?_append_or h0 with hin | ⟨hmem, _⟩
    · exact hP4 t v nm hin
    · have := hnew _ hmem
      simp [isJumpOp] at this

/-- Appending non-jump instructions preserves the invariant while a
loop is pending, provided the new position's suffix is again
newlines-then-string. -/
theorem genInv_some_append {astL : List Node} {i : Nat} {ops : List Op}
    {ni opI : Nat} (i' : Nat) (new : List Op)
    (hinv : genInv astL i ops (some (ni, opI)))
    (hnew : ∀ op ∈ new, isJumpOp op = false)
    (hps : pendingStr (astL.drop i')) :
    genInv astL i' (ops ++ new) (some (ni, opI)) := by
  obtain ⟨hpend, hP2, hP3, hP4⟩ := hinv
  obtain ⟨⟨s0, e0, nm0, hA⟩, ⟨nmL, hL⟩, hN, _⟩ := hpend ni opI rfl
  refine ⟨?_, ?_, ?_, ?_⟩
  · intro ni2 opI2 hEq
    have h1 : ni2 = ni ∧ opI2 = opI := by
      constructor <;> [exact (Prod.mk.injEq .. ▸ Option.some.inj hEq.symm).1;
        exact (Prod.mk.injEq .. ▸ Option.some.inj hEq.symm).2]
    obtain ⟨rfl, rfl⟩ := h1
    exact ⟨⟨s0, e0, nm0, get?_append_left' hA⟩, ⟨nmL, get?_append_left' hL⟩, hN, hps⟩
  · intro p t s e nm hp
    rcases get?_append_or hp with hin | ⟨hmem, _⟩
    · rcases hP2 p t s e nm hin with ⟨ni2, hc⟩ | hgood
      · left
        refine ⟨ni, ?_⟩
        have : p = opI := (Prod.mk.injEq .. ▸ Option.some.inj hc).2.symm
        rw [this]
      · exact Or.inr (goodA_append hgood)
    · have := hnew _ hmem
      simp [isJumpOp] at this
  · intro q t v nm hq
    rcases get?_append_or hq with hin | ⟨hmem, _⟩
    · exact goodC_append (hP3 q t v nm hin)
    · have := hnew _ hmem
      simp [isJumpOp] at this
  · intro t v nm h0
    rcases get?_append_or h0 with hin | ⟨hmem, _⟩
    · exact hP4 t v nm hin
    · have := hnew _ hmem
      simp [isJumpOp] at this

/-- Closing a pending loop re-establishes the invariant: the pending
`CmpArrayEmptyJmp` at `opI` is patched to target the closing
`CmpCounterLessJmp` (appended at index `ops2.length + 1`, right after
`IncCounter`), whose own target `opI` lands on the `LoadArrayItem` at
`opI + 1`. -/
theorem genInv_close {astL : List Node} {i : Nat} {ops2 : List Op} {ni opI : Nat}
    (i' : Nat) (e3 : Option Nat) (nm3 : Str) {s2 e2 : Option Nat} {nm2 : Str}
    (hinv : genInv astL i ops2 (some (ni, opI)))
    (hopI : ops2.get? opI = some (Op.cmpArrayEmptyJmp 0 s2 e2 nm2)) :
    genInv astL i'
      ((ops2.set opI (Op.cmpArrayEmptyJmp (ops2.length + 1) s2 e2 nm2)) ++
        [Op.incCounter, Op.cmpCounterLessJmp opI e3 nm3]) none := by
  obtain ⟨hpend, hP2, hP3, hP4⟩ := hinv
  obtain ⟨⟨s0, e0, nm0, hA⟩, ⟨nmL, hL⟩, _, _⟩ := hpend ni opI rfl
  have hopIlt : opI < ops2.length := get?_some_lt hopI
  have hlen3 : (ops2.set opI (Op.cmpArrayEmptyJmp (ops2.length + 1) s2 e2 nm2)).length =
      ops2.length := by simp
  -- the patched jump
  have gOpI : ((ops2.set opI (Op.cmpArrayEmptyJmp (ops2.length + 1) s2 e2 nm2)) ++
      [Op.incCounter, Op.cmpCounterLessJmp opI e3 nm3]).get? opI =
      some (Op.cmpArrayEmptyJmp (ops2.length + 1) s2 e2 nm2) := by
    apply get?_append_left'
    exact List.get?_set_eq_of_lt _ hopIlt
  -- the appended closing jump
  have gClose : ((ops2.set opI (Op.cmpArrayEmptyJmp (ops2.length + 1) s2 e2 nm2)) ++
      [Op.incCounter, Op.cmpCounterLessJmp opI e3 nm3]).get? (ops2.length + 1) =
      some (Op.cmpCounterLessJmp opI e3 nm3) := by
    rw [List.get?_append_right (by omega)]
    simp [hlen3]
  -- the body entry after the pending jump
  have gLoad : ((ops2.set opI (Op.cmpArrayEmptyJmp (ops2.length + 1) s2 e2 nm2)) ++
      [Op.incCounter, Op.cmpCounterLessJmp opI e3 nm3]).get? (opI + 1) =
      some (Op.loadArrayItem nmL) := by
    apply get?_append_left'
    rw [List.get?_set_ne _ _ (by omega)]
    exact hL
  refine ⟨by simp, ?_, ?_, ?_⟩
  · -- every CmpArrayEmptyJmp targets a CmpCounterLessJmp
    intro p t s e nm hp
    right
    rcases get?_append_or hp with hin | ⟨hmem, hge⟩
    · by_cases hpe : p = opI
      · subst hpe
        rw [List.get?_set_eq_of_lt _ hopIlt] at hin
        obtain ⟨ht, _, _, _⟩ := Op.cmpArrayEmptyJmp.inj (Option.some.inj hin)
        rw [← ht]
        exact ⟨e3, nm3, gClose⟩
      · rw [List.get?_set_ne _ _ (fun hne => hpe hne.symm)] at hin
        rcases hP2 p t s e nm hin with ⟨ni2, hc⟩ | hgood
        · exact absurd ((Prod.mk.injEq .. ▸ Option.some.inj hc).2.symm) hpe
        · obtain ⟨v, nmv, hg⟩ := hgood
          have htne : t ≠ opI := by
            intro hte
            rw [hte, hopI] at hg
            simp at hg
          refine ⟨v, nmv, ?_⟩
          apply get?_append_left'
          rw [List.get?_set_ne _ _ (fun hne => htne hne.symm)]
          exact hg
    · -- the appended ops are IncCounter and CmpCounterLessJmp, never CmpArrayEmptyJmp
      simp at hmem
  · -- every CmpCounterLessJmp is well targeted
    intro q t v nm hq
    rcases get?_append_or hq with hin | ⟨hmem, hge⟩
    · by_cases hqe : q = opI
      · subst hqe
        rw [List.get?_set_eq_of_lt _ hopIlt] at hin
        simp at hin
      · rw [List.get?_set_ne _ _ (fun hne => hqe hne.symm)] at hin
        obtain ⟨⟨s', e', nm', hg1⟩, nm'', hg2⟩ := hP3 q t v nm hin
        have htne : t ≠ opI := by
          intro hte
          rw [hte, hopI] at hg1
          have hq0 : q = 0 := (Op.cmpArrayEmptyJmp.inj (Option.some.inj hg1)).1.symm
          rw [hq0] at hin
          exact hP4 t v nm hin
        have htne1 : t + 1 ≠ opI := by
          intro hte
          rw [hte, hopI] at hg2
          simp at hg2
        refine ⟨⟨s', e', nm', ?_⟩, nm'', ?_⟩
        · apply get?_append_left'
          rw [List.get?_set_ne _ _ (fun hne => htne hne.symm)]
          exact hg1
        · apply get?_append_left'
          rw [List.get?_set_ne _ _ (fun hne => htne1 hne.symm)]
          exact hg2
    · -- the new closing jump: q must be ops2.length + 1
      rw [List.get?_append_right (by omega)] at hq
      rw [hlen3] at hq hge
      rcases Nat.lt_or_ge q (ops2.length + 1) with hq1 | hq1
      · have : q - ops2.length = 0 := by omega
        rw [this] at hq
        simp at hq
      · rcases Nat.lt_or_ge q (ops2.length + 2) with hq2 | hq2
        · have hqv : q = ops2.length + 1 := by omega
          have : q - ops2.length = 1 := by omega
          rw [this] at hq
          simp at hq
          obtain ⟨ht, _, _⟩ := hq
          subst hqv
          rw [← ht]
          exact ⟨⟨s2, e2, nm2, by rw [gOpI]⟩, nmL, gLoad⟩
        · have : q - ops2.length ≥ 2 := by omega
          rw [List.get?_eq_none.mpr (by simpa using this)] at hq
          simp at hq
  · -- instruction 0 is still not a CmpCounterLessJmp
    intro t v nm h0
    rcases get?_append_or h0 with hin | ⟨hmem, hge⟩
    · by_cases h0e : (0 : Nat) = opI
      · rw [← h0e] at hopIlt hin
        rw [List.get?_set_eq_of_lt _ hopIlt] at hin
        simp at hin
      · rw [List.get?_set_ne _ _ (fun hne => h0e hne.symm)] at hin
        exact hP4 t v nm hin
    · rw [hlen3] at hge
      omega

/-- `genInv` with a closed loop does not depend on the node index. -/
theorem genInv_none_reindex {astL : List Node} {i : Nat} {ops : List Op}
    (i' : Nat) (hinv : genInv astL i ops none) : genInv astL i' ops none :=
  ⟨by simp, hinv.2.1, hinv.2.2.1, hinv.2.2.2⟩

/-- Move the node index of a pending `genInv`, given the suffix shape at
the new index. -/
theorem genInv_some_reindex {astL : List Node} {i : Nat} {ops : List Op} {ni opI : Nat}
    (i' : Nat) (hinv : genInv astL i ops (some (ni, opI)))
    (hps : pendingStr (astL.drop i')) : genInv astL i' ops (some (ni, opI)) := by
  obtain ⟨hpend, hP2, hP3, hP4⟩ := hinv
  obtain ⟨hA, hL, hN, _⟩ := hpend ni opI rfl
  refine ⟨?_, hP2, hP3, hP4⟩
  intro ni2 opI2 hEq
  have h1 : ni2 = ni := (Prod.mk.injEq .. ▸ Option.some.inj hEq.symm).1
  have h2 : opI2 = opI := (Prod.mk.injEq .. ▸ Option.some.inj hEq.symm).2
  subst h1
  subst h2
  exact ⟨hA, hL, hN, hps⟩

/-- While a loop is pending, the current node can only be a `String` or
a `NewLine` (the suffix is newlines-then-string). -/
theorem genInv_pending_head {astL : List Node} {i : Nat} {ops : List Op} {ni opI : Nat}
    {node : Node} (hinv : genInv astL i ops (some (ni, opI)))
    (hget : astL.get? i = some node) :
    (∃ fc ec ch, node = Node.str fc ec ch) ∨ (∃ a b, node = Node.newLine a b) := by
  have hps := (hinv.1 ni opI rfl).2.2.2
  rw [drop_eq_cons_of_get? i astL node hget] at hps
  rcases pendingStr_cons hps with h | ⟨h, _⟩
  · exact Or.inl h
  · exact Or.inr h

/-- Opening an array loop establishes the pending invariant: the freshly
emitted `CmpArrayEmptyJmp` (dummy target 0) sits at `ops.length + 1`,
the `LoadArrayItem` right after it, the loop node is an array node, and
`expect_string` certified the suffix. -/
theorem genInv_open {astL : List Node} {i : Nat} {ops : List Op}
    {fc ec : Nat} {nm : Str} {s e : Option Nat}
    (hinv : genInv astL i ops none)
    (hget : astL.get? i = some (Node.array fc ec nm s e))
    (hps : pendingStr (astL.drop (i + 2)))
    (opI : Nat) (hopIeq : opI = ops.length + 1) :
    genInv astL (i + 2)
      ((ops ++ [Op.setCounter (s.getD 0), Op.cmpArrayEmptyJmp 0 s e nm]) ++
        [Op.loadArrayItem nm, Op.putScopeVar nmItem, Op.loadCounter, Op.putScopeVar nmIndex])
      (some (i, opI)) := by
  obtain ⟨_, hP2, hP3, hP4⟩ := hinv
  subst hopIeq
  have hAt : ((ops ++ [Op.setCounter (s.getD 0), Op.cmpArrayEmptyJmp 0 s e nm]) ++
      [Op.loadArrayItem nm, Op.putScopeVar nmItem, Op.loadCounter, Op.putScopeVar nmIndex]).get?
      (ops.length + 1) = some (Op.cmpArrayEmptyJmp 0 s e nm) := by
    apply get?_append_left'
    rw [List.get?_append_right (by omega)]
    have h1 : ops.length + 1 - ops.length = 1 := by omega
    rw [h1]
    rfl
  have hLoad : ((ops ++ [Op.setCounter (s.getD 0), Op.cmpArrayEmptyJmp 0 s e nm]) ++
      [Op.loadArrayItem nm, Op.putScopeVar nmItem, Op.loadCounter, Op.putScopeVar nmIndex]).get?
      (ops.length + 2) = some (Op.loadArrayItem nm) := by
    rw [List.get?_append_right (by simp)]
    have h2 : ops.length + 2 -
        (ops ++ [Op.setCounter (s.getD 0), Op.cmpArrayEmptyJmp 0 s e nm]).length = 0 := by
      simp
    rw [h2]
    rfl
  refine ⟨?_, ?_, ?_, ?_⟩
  · intro ni2 opI2 hEq
    have h1 : ni2 = i := (Prod.mk.injEq .. ▸ Option.some.inj hEq.symm).1
    have h2 : opI2 = ops.length + 1 := (Prod.mk.injEq .. ▸ Option.some.inj hEq.symm).2
    subst h1
    subst h2
    exact ⟨⟨s, e, nm, hAt⟩, ⟨nm, hLoad⟩, ⟨fc, ec, nm, s, e, hget⟩, hps⟩
  · intro p t s2 e2 nm2 hp
    rcases get?_append_or hp with hin1 | ⟨hmem, hge⟩
    · rcases get?_append_or hin1 with hin2 | ⟨hmem2, hge2⟩
      · rcases hP2 p t s2 e2 nm2 hin2 with ⟨ni3, hc⟩ | hgood
        · simp at hc
        · exact Or.inr (goodA_append (goodA_append hgood))
      · rw [List.get?_append_right hge2] at hin1
        rcases Nat.lt_or_ge p (ops.length + 1) with hb1 | hb1
        · have hd : p - ops.length = 0 := by omega
          rw [hd] at hin1
          simp at hin1
        · rcases Nat.lt_or_ge p (ops.length + 2) with hb2 | hb2
          · left
            exact ⟨i, by rw [show p = ops.length + 1 by omega]⟩
          · have hd : p - ops.length ≥ 2 := by omega
            rw [List.get?_eq_none.mpr (by simpa using hd)] at hin1
            simp at hin1
    · simp at hmem
  · intro q t v nm2 hq
    rcases get?_append_or hq with hin1 | ⟨hmem, hge⟩
    · rcases get?_append_or hin1 with hin2 | ⟨hmem2, hge2⟩
      · exact goodC_append (goodC_append (hP3 q t v nm2 hin2))
      · simp at hmem2
    · simp at hmem
  · intro t v nm2 h0
    rcases get?_append_or h0 with hin1 | ⟨hmem, hge⟩
    · rcases get?_append_or hin1 with hin2 | ⟨hmem2, hge2⟩
      · exact hP4 t v nm2 hin2
      · simp at hmem2
    · simp at hmem

/-- Generator soundness: whenever `gen_ir`'s loop succeeds from a state
satisfying `genInv`, every jump in the emitted program obeys the
landing-is-target-plus-one convention. -/
theorem genIrLoop_jumps :
    ∀ (fuel : Nat) (code : Str) (astL : List Node) (i : Nat) (ops : List Op)
      (arrSt : Option (Nat × Nat)) (sc : List Str) (res : List Op),
      genIrLoop code astL fuel i ops arrSt sc = .ok res →
      genInv astL i ops arrSt → jumpTargetsOk res := by
  intro fuel
  induction fuel with
  | zero =>
    intro code astL i ops arrSt sc res h hinv
    rw [genIrLoop.eq_def] at h
    cases hget : astL.get? i with
    | none =>
      simp only [hget] at h
      first
      | exact (Res.ok.inj h) ▸ genInv_exit hinv hget
      | exact h ▸ genInv_exit hinv hget
    | some node =>
      simp only [hget] at h
      all_goals exact absurd h (by simp)
  | succ fuel ih =>
    intro code astL i ops arrSt sc res h hinv
    rw [genIrLoop.eq_def] at h
    cases hget : astL.get? i with
    | none =>
      simp only [hget] at h
      first
      | exact (Res.ok.inj h) ▸ genInv_exit hinv hget
      | exact h ▸ genInv_exit hinv hget
    | some node =>
      simp only [hget] at h
      cases node with
      | lit fc ec =>
        cases arrSt with
        | some pr =>
          obtain ⟨ni, opI⟩ := pr
          rcases genInv_pending_head hinv hget with ⟨f, e2, c, hq⟩ | ⟨a2, b2, hq⟩ <;>
            simp at hq
        | none =>
          cases hbs : byteSlice code fc ec with
          | none => simp [hbs] at h
          | some s =>
            simp only [hbs] at h
            exact ih _ _ _ _ _ _ _ h (genInv_none_append (i + 1) _ hinv (by
              intro op hop
              simp at hop
              rcases hop with rfl | rfl <;> rfl))
      | int fc ec v =>
        cases arrSt with
        | some pr =>
          obtain ⟨ni, opI⟩ := pr
          rcases genInv_pending_head hinv hget with ⟨f, e2, c, hq⟩ | ⟨a2, b2, hq⟩ <;>
            simp at hq
        | none =>
          cases hbs : byteSlice code fc ec with
          | none => simp [hbs] at h
          | some s =>
            simp only [hbs] at h
            cases hpipe : isNodePipe astL (i + 1) with
            | true =>
              rw [if_pos hpipe] at h
              cases hes : expectString astL (i + 2) with
              | ok u =>
                simp only [hes] at h
                exact ih _ _ _ _ _ _ _ h (genInv_none_append _ _
                  (genInv_none_append 0 _ hinv (by
                    intro op hop
                    simp at hop
                    subst hop
                    rfl)) (by
                  intro op hop
                  simp at hop
                  subst hop
                  rfl))
              | err er => simp [hes] at h
              | panic => simp [hes] at h
              | fuelOut => simp [hes] at h
            | false =>
              rw [if_neg (by simp [hpipe])] at h
              exact ih _ _ _ _ _ _ _ h (genInv_none_append _ _
                (genInv_none_append 0 _ hinv (by
                  intro op hop
                  simp at hop
                  subst hop
                  rfl)) (by
                intro op hop
                simp at hop
                subst hop
                rfl))
      | name fc ec =>
        cases arrSt with
        | some pr =>
          obtain ⟨ni, opI⟩ := pr
          rcases genInv_pending_head hinv hget with ⟨f, e2, c, hq⟩ | ⟨a2, b2, hq⟩ <;>
            simp at hq
        | none =>
          cases hbs : byteSlice code fc ec with
          | none => simp [hbs] at h
          | some nm =>
            simp only [hbs] at h
            cases hres : isNameReserved nm with
            | true =>
              rw [if_pos hres] at h
              simp at h
            | false =>
              rw [if_neg (by simp [hres])] at h
              cases hpipe : isNodePipe astL (i + 1) with
              | true =>
                rw [if_pos hpipe] at h
                cases hes : expectString astL (i + 2) with
                | ok u =>
                  simp only [hes] at h
                  exact ih _ _ _ _ _ _ _ h (genInv_none_append _ _
                    (genInv_none_append 0 _ hinv (by
                      intro op hop
                      simp at hop
                      subst hop
                      rfl)) (by
                    intro op hop
                    simp at hop
                    subst hop
                    rfl))
                | err er => simp [hes] at h
                | panic => simp [hes] at h
                | fuelOut => simp [hes] at h
              | false =>
                rw [if_neg (by simp [hpipe])] at h
                exact ih _ _ _ _ _ _ _ h (genInv_none_append _ _
                  (genInv_none_append 0 _ hinv (by
                    intro op hop
                    simp at hop
                    subst hop
                    rfl)) (by
                  intro op hop
                  simp at hop
                  subst hop
                  rfl))
      | array fc ec nm s e =>
        cases arrSt with
        | some pr =>
          obtain ⟨ni, opI⟩ := pr
          rcases genInv_pending_head hinv hget with ⟨f, e2, c, hq⟩ | ⟨a2, b2, hq⟩ <;>
            simp at hq
        | none =>
          cases harr : isNameArray nm with
          | true =>
            simp only [harr, reduceIte] at h
            cases hpipe : isNodePipe astL (i + 1) with
            | false =>
              rw [if_pos hpipe] at h
              simp at h
            | true =>
              rw [if_neg (by simp [hpipe])] at h
              cases hes : expectString astL (i + 2) with
              | ok u =>
                simp only [hes] at h
                exact ih _ _ _ _ _ _ _ h (genInv_open hinv hget (expectString_ok hes) _
                  (by simp only [List.length_append, List.length_cons, List.length_nil]; omega))
              | err er => simp [hes] at h
              | panic => simp [hes] at h
              | fuelOut => simp [hes] at h
          | false =>
            simp only [harr, reduceIte] at h
            by_cases hcv : ¬ nm ∈ sc ∧ isNameReserved nm = true
            · rw [if_pos hcv] at h
              simp at h
            · rw [if_neg hcv] at h
              cases hpipe : isNodePipe astL (i + 1) with
              | true =>
                rw [if_pos hpipe] at h
                cases hes : expectString astL (i + 2) with
                | ok u =>
                  simp only [hes] at h
                  exact ih _ _ _ _ _ _ _ h (genInv_none_append _ _
                    (genInv_none_append 0 _ hinv (by
                      intro op hop
                      simp at hop
                      subst hop
                      rfl)) (by
                    intro op hop
                    simp at hop
                    subst hop
                    rfl))
                | err er => simp [hes] at h
                | panic => simp [hes] at h
                | fuelOut => simp [hes] at h
              | false =>
                have hp2 : ¬ (isNodePipe astL (i + 1) = true) := by simp [hpipe]
                rw [if_neg hp2] at h
                exact ih _ _ _ _ _ _ _ h (genInv_none_append _ _
                  (genInv_none_append 0 _ hinv (by
                    intro op hop
                    simp at hop
                    subst hop
                    rfl)) (by
                  intro op hop
                  simp at hop
                  subst hop
                  rfl))
      | str fc2 ec2 children =>
        cases hch : genChildren children code sc with
        | err er => simp [hch] at h
        | panic => simp [hch] at h
        | fuelOut => simp [hch] at h
        | ok chOps =>
          simp only [hch] at h
          have hchOk : ∀ op ∈ chOps, isJumpOp op = false :=
            genChildren_noJump children code sc chOps hch
          have hC : ∀ op ∈ [Op.collapse], isJumpOp op = false := by
            intro op hop
            simp at hop
            subst hop
            rfl
          have hFD : ∀ op ∈ [Op.flush, Op.destroyScope], isJumpOp op = false := by
            intro op hop
            simp at hop
            rcases hop with rfl | rfl <;> rfl
          have hPS : ∀ op ∈ [Op.putScopeVar nmUnderscore], isJumpOp op = false := by
            intro op hop
            simp at hop
            subst hop
            rfl
          cases hpipe : isNodePipe astL (i + 1) with
          | true =>
            rw [if_pos hpipe] at h
            cases hes : expectString astL (i + 2) with
            | ok u =>
              simp only [hes] at h
              cases arrSt with
              | none =>
                exact ih _ _ _ _ _ _ _ h (genInv_none_append _ _
                  (genInv_none_append 0 _ (genInv_none_append 0 _ hinv hchOk) hC) hPS)
              | some pr =>
                obtain ⟨ni, opI⟩ := pr
                have hps2 := expectString_ok hes
                exact ih _ _ _ _ _ _ _ h (genInv_some_append _ _
                  (genInv_some_append (i + 2) _ (genInv_some_append (i + 2) _ hinv hchOk hps2) hC hps2)
                  hPS hps2)
            | err er => simp [hes] at h
            | panic => simp [hes] at h
            | fuelOut => simp [hes] at h
          | false =>
            rw [if_neg (by simp [hpipe])] at h
            cases arrSt with
            | none =>
              replace h : genIrLoop code astL fuel (i + 1)
                  (((ops ++ chOps) ++ [Op.collapse]) ++ [Op.flush, Op.destroyScope])
                  none sc = .ok res := h
              exact ih _ _ _ _ _ _ _ h (genInv_none_append _ _
                (genInv_none_append 0 _ (genInv_none_append 0 _ hinv hchOk) hC) hFD)
            | some pr =>
              obtain ⟨ni, opI⟩ := pr
              obtain ⟨⟨s0, e0, nm0, hA⟩, ⟨nmL, hL⟩, ⟨fc3, ec3, nm3, s3, e3, hNi⟩, hps0⟩ :=
                hinv.1 ni opI rfl
              have hopI2 : ((((ops ++ chOps) ++ [Op.collapse]) ++
                  [Op.flush, Op.destroyScope]).get? opI) =
                  some (Op.cmpArrayEmptyJmp 0 s0 e0 nm0) :=
                get?_append_left' (get?_append_left' (get?_append_left' hA))
              simp only [hopI2, hNi] at h
              have hinv2 : genInv astL i
                  (((ops ++ chOps) ++ [Op.collapse]) ++ [Op.flush, Op.destroyScope])
                  (some (ni, opI)) :=
                genInv_some_append i _
                  (genInv_some_append i _ (genInv_some_append i chOps hinv hchOk hps0)
                    hC hps0) hFD hps0
              exact ih _ _ _ _ _ _ _ h (genInv_close (i + 1) e3 nm3 hinv2 hopI2)
      | newLine a b =>
        replace h : genIrLoop code astL fuel (i + 1) ops arrSt sc = .ok res := h
        cases arrSt with
        | none => exact ih _ _ _ _ _ _ _ h (genInv_none_reindex (i + 1) hinv)
        | some pr =>
          obtain ⟨ni, opI⟩ := pr
          have hps0 := (hinv.1 ni opI rfl).2.2.2
          rw [drop_eq_cons_of_get? i astL _ hget] at hps0
          rcases pendingStr_cons hps0 with ⟨f, e2, c, hq⟩ | ⟨hh, hps1⟩
          · simp at hq
          · exact ih _ _ _ _ _ _ _ h (genInv_some_reindex (i + 1) hinv hps1)
      | pipe fc ec => simp at h
      | range fc ec a b => simp at h
      | mcrDef a b => simp at h
      | mcrExp a b => simp at h

/-- C1: the VM advances its program counter by exactly one after every
successfully executed instruction — including instructions that
performed a jump, whose landing index is therefore the encoded target
plus one — and every jump emitted by a successful run of the IR
generator obeys that convention: each `CmpArrayEmptyJmp` targets the
index of its loop's closing `CmpCounterLessJmp` (landing one past the
loop), and each `CmpCounterLessJmp` targets the index of its loop's
`CmpArrayEmptyJmp` (landing on the `LoadArrayItem` that begins the
body). -/
theorem C1_jump_encoding :
    (∀ (prog : List Op) (st st' : VmState), step prog st = .ok st' →
      st'.pc = (jumpTarget prog st).getD st.pc + 1) ∧
    (∀ (code : Str) (astL : List Node) (res : List Op),
      genIr code astL = .ok res → jumpTargetsOk res) := by
  constructor
  · exact step_pc_advance
  · intro code astL res h
    exact genIrLoop_jumps (astL.length + 1) code astL 0 [] none [] res h
      ⟨by simp, by simp, by simp, by simp⟩

/-- Witness for C1 at concrete inputs: a `PutStr` step advances the pc
from 0 to 1, and the generated single-loop program satisfies the jump
convention. -/
theorem C1_jump_encoding_witness :
    (({ counter := 0, pc := 1, stack := [['x']], vars := [], scope := [], arrays := [],
        out := [] } : VmState).pc
      = (jumpTarget [Op.putStr ['x']] (vmNew [] [])).getD (vmNew [] []).pc + 1) ∧
    jumpTargetsOk (loopOps ['A'] none none) :=
  ⟨C1_jump_encoding.1 [Op.putStr ['x']] (vmNew [] []) _ rfl,
   C1_jump_encoding.2 ['x'] (loopAst ['A'] none none) (loopOps ['A'] none none)
     (genIr_loopAst ['A'] none none rfl)⟩
